import Mathlib
/-!
# Verification of the rvim editing core

This file gives a shallow embedding, in Lean 4, of the state-bearing parts of
the rvim text editor (a small vim-style terminal editor written in Rust) and
proves or refutes the specification claims about them.

The repository contains two parallel subsystems:

* `src/editor/buffer.rs` + `src/editor/cursor.rs` + `src/vim/*` (used by
  `src/main.rs`): a `Buffer` whose undo log uses dedicated
  `InsertLine`/`DeleteLine` action kinds, an erroring cursor `Position`,
  a pure `KeyMapper`, and a `Mode` type carrying payloads.  Embedded below
  in the namespaces `Ed`, `Vim` and `Main`.
* `src/domain/*` + `src/application/*`: a `TextBuffer` whose undo log encodes
  line operations with a `"\n"` marker string, a clamping `CursorPosition`,
  a stateful `VimBindings` key parser and a table-driven `ModeManager`.
  Embedded below in the namespaces `Domain` and `App`.

Modelling conventions:

* Rust `String` lines become `List Char`; `Vec<String>` becomes
  `List (List Char)`.
* Rust `usize` becomes `Nat` (the code never subtracts below zero on the
  embedded paths except via `saturating_sub`, which is Nat subtraction).
* `Vec` used as a stack (push/pop at the end) is embedded as a `List` with
  the top of the stack at the head.
* Fallible Rust methods `fn f(&mut self, ..) -> Result<T, E>` become
  `f : State → .. → Except E T × State`; the returned state is the
  post-call state on both the `Ok` and the `Err` path, mirroring the
  mutations the Rust code performed before returning.
* Error strings such as `format!("Row {} out of bounds", row)` are embedded
  as constructors of an error datatype carrying the same data.
-/
/-! ## Generic list helper lemmas -/

namespace Ed

/-! ## Embedding of `src/editor/buffer.rs` (`Buffer` with
`Insert`/`Delete`/`InsertLine`/`DeleteLine` action kinds) and
`src/editor/cursor.rs` (`Position`). -/
/-- One line of text (Rust `String`). -/
abbrev Line := List Char

/-- `src/editor/cursor.rs`: `Position { row: usize, col: usize }`. -/
structure Position where
  row : Nat
  col : Nat
deriving DecidableEq

/-- `src/error.rs` error variants used by the editor subsystem. -/
inductive EditorError where
  | outOfBounds (row col : Nat)
  | emptyUndoStack
  | emptyRedoStack
deriving DecidableEq

/-- `src/editor/buffer.rs`: `enum ActionType { Insert, Delete, InsertLine, DeleteLine }`. -/
inductive ActionType where
  | insert
  | delete
  | insertLine
  | deleteLine
deriving DecidableEq

/-- `src/editor/buffer.rs`: `struct Action { action_type, position, content }`. -/
structure Action where
  action_type : ActionType
  position : Position
  content : Line
deriving DecidableEq

/-- `src/editor/buffer.rs`: `struct Buffer`.  The `file_path` field carries no
editing behaviour and is omitted.  Stacks keep their top at the list head. -/
structure Buffer where
  lines : List Line
  modified : Bool
  undo_stack : List Action
  redo_stack : List Action
deriving DecidableEq

/-- Indexing `self.lines[row]` (always guarded by a bounds check in the code). -/
def lineAt (L : List Line) (r : Nat) : Line := L.getD r []

/-- `Buffer::new()`. -/
def Buffer.new : Buffer := ⟨[[]], false, [], []⟩

/-- `Buffer::line_count`. -/
def Buffer.line_count (b : Buffer) : Nat := b.lines.length

/-- `Buffer::line_length(index)` (`Result<usize>`). -/
def Buffer.line_length (b : Buffer) (index : Nat) : Except EditorError Nat :=
  if index < b.lines.length then .ok (lineAt b.lines index).length
  else .error (.outOfBounds index 0)

/-- `Buffer::is_modified`. -/
def Buffer.is_modified (b : Buffer) : Bool := b.modified

/-- `Buffer::can_undo`. -/
def Buffer.can_undo (b : Buffer) : Bool := !b.undo_stack.isEmpty

/-- `Buffer::can_redo`. -/
def Buffer.can_redo (b : Buffer) : Bool := !b.redo_stack.isEmpty

/-- `Buffer::push_action` (private helper): push onto the undo stack and clear
the redo stack. -/
def Buffer.push_action (b : Buffer) (a : Action) : Buffer :=
  { b with undo_stack := a :: b.undo_stack, redo_stack := [] }

/-- `Buffer::insert_char(pos, ch)`. -/
def Buffer.insert_char (b : Buffer) (pos : Position) (ch : Char) :
    Except EditorError Unit × Buffer :=
  if pos.row ≥ b.lines.length then
    (.error (.outOfBounds pos.row pos.col), b)
  else
    let line := lineAt b.lines pos.row
    if pos.col > line.length then
      (.error (.outOfBounds pos.row pos.col), b)
    else
      let a : Action := ⟨.insert, pos, [ch]⟩
      let b' := { b with lines := b.lines.set pos.row (line.insertIdx pos.col ch),
                         modified := true }
      (.ok (), b'.push_action a)

/-- `Buffer::delete_char(pos)`. -/
def Buffer.delete_char (b : Buffer) (pos : Position) :
    Except EditorError (Option Char) × Buffer :=
  if pos.row ≥ b.lines.length then
    (.error (.outOfBounds pos.row pos.col), b)
  else
    let line := lineAt b.lines pos.row
    if pos.col ≥ line.length then
      (.ok none, b)
    else
      let deleted := line.getD pos.col ' '
      let a : Action := ⟨.delete, pos, [deleted]⟩
      let b' := { b with lines := b.lines.set pos.row (line.eraseIdx pos.col),
                         modified := true }
      (.ok (some deleted), b'.push_action a)

/-- `Buffer::insert_line(row)`. -/
def Buffer.insert_line (b : Buffer) (row : Nat) :
    Except EditorError Unit × Buffer :=
  if row > b.lines.length then
    (.error (.outOfBounds row 0), b)
  else
    let a : Action := ⟨.insertLine, ⟨row, 0⟩, []⟩
    let b' := { b with lines := b.lines.insertIdx row [], modified := true }
    (.ok (), b'.push_action a)

/-- `Buffer::delete_line(row)`. -/
def Buffer.delete_line (b : Buffer) (row : Nat) :
    Except EditorError (Option Line) × Buffer :=
  if row ≥ b.lines.length then
    (.error (.outOfBounds row 0), b)
  else if b.lines.length = 1 then
    let content := lineAt b.lines 0
    let a : Action := ⟨.deleteLine, ⟨row, 0⟩, content⟩
    let b' := { b with lines := b.lines.set 0 [], modified := true }
    (.ok (some content), b'.push_action a)
  else
    let deleted := lineAt b.lines row
    let a : Action := ⟨.deleteLine, ⟨row, 0⟩, deleted⟩
    let b' := { b with lines := b.lines.eraseIdx row, modified := true }
    (.ok (some deleted), b'.push_action a)

/-- The effect of `Buffer::undo` on `self.lines` when reverse-applying one
action (the body of the `match action.action_type` in `undo`). -/
def undoLines (a : Action) (L : List Line) : List Line :=
  match a.action_type with
  | .insert =>
    if a.position.row < L.length ∧
        a.position.col < (lineAt L a.position.row).length then
      L.set a.position.row ((lineAt L a.position.row).eraseIdx a.position.col)
    else L
  | .delete =>
    if a.position.row < L.length ∧
        a.position.col ≤ (lineAt L a.position.row).length then
      match a.content.head? with
      | some ch =>
        L.set a.position.row ((lineAt L a.position.row).insertIdx a.position.col ch)
      | none => L
    else L
  | .insertLine =>
    if a.position.row < L.length then L.eraseIdx a.position.row else L
  | .deleteLine =>
    if a.position.row ≤ L.length then L.insertIdx a.position.row a.content else L

/-- The effect of `Buffer::redo` on `self.lines` when re-applying one action
(the body of the `match action.action_type` in `redo`). -/
def redoLines (a : Action) (L : List Line) : List Line :=
  match a.action_type with
  | .insert =>
    if a.position.row < L.length ∧
        a.position.col ≤ (lineAt L a.position.row).length then
      match a.content.head? with
      | some ch =>
        L.set a.position.row ((lineAt L a.position.row).insertIdx a.position.col ch)
      | none => L
    else L
  | .delete =>
    if a.position.row < L.length ∧
        a.position.col < (lineAt L a.position.row).length then
      L.set a.position.row ((lineAt L a.position.row).eraseIdx a.position.col)
    else L
  | .insertLine =>
    if a.position.row ≤ L.length then L.insertIdx a.position.row a.content else L
  | .deleteLine =>
    if a.position.row < L.length then L.eraseIdx a.position.row else L

/-- `Buffer::undo`. -/
def Buffer.undo (b : Buffer) : Except EditorError Unit × Buffer :=
  match b.undo_stack with
  | [] => (.error .emptyUndoStack, b)
  | a :: rest =>
    (.ok (), { b with lines := undoLines a b.lines,
                      undo_stack := rest,
                      redo_stack := a :: b.redo_stack,
                      modified := !rest.isEmpty })

/-- `Buffer::redo`. -/
def Buffer.redo (b : Buffer) : Except EditorError Unit × Buffer :=
  match b.redo_stack with
  | [] => (.error .emptyRedoStack, b)
  | a :: rest =>
    (.ok (), { b with lines := redoLines a b.lines,
                      redo_stack := rest,
                      undo_stack := a :: b.undo_stack,
                      modified := true })

/-- `Buffer::mark_saved`. -/
def Buffer.mark_saved (b : Buffer) : Buffer := { b with modified := false }

/-! ### History coherence invariant

`G a L` says that reverse-applying action `a` to the line list `L` is
"exact": all the bounds checks inside `undo` pass and the data stored in the
action matches the document, so that `undo` precisely inverts the original
edit and `redo` precisely inverts the `undo`.  `H a L` is the symmetric
condition for re-applying `a` via `redo`.  `UC`/`RC` extend these along the
undo/redo stacks, and `Inv` is the whole-buffer invariant preserved by every
operation (proved below). -/
/-- Guard for exact reverse-application of one action. -/
def G (a : Action) (L : List Line) : Prop :=
  match a.action_type with
  | .insert => a.position.row < L.length ∧
      a.position.col < (lineAt L a.position.row).length ∧
      a.content = [(lineAt L a.position.row).getD a.position.col ' ']
  | .delete => a.position.row < L.length ∧
      a.position.col ≤ (lineAt L a.position.row).length ∧
      a.content.length = 1
  | .insertLine => a.position.row < L.length ∧
      lineAt L a.position.row = [] ∧ a.content = [] ∧ 2 ≤ L.length
  | .deleteLine => a.position.row ≤ L.length

/-- Guard for exact re-application of one action. -/
def H (a : Action) (L : List Line) : Prop :=
  match a.action_type with
  | .insert => a.position.row < L.length ∧
      a.position.col ≤ (lineAt L a.position.row).length ∧
      a.content.length = 1
  | .delete => a.position.row < L.length ∧
      a.position.col < (lineAt L a.position.row).length ∧
      a.content = [(lineAt L a.position.row).getD a.position.col ' ']
  | .insertLine => a.position.row ≤ L.length ∧ a.content = []
  | .deleteLine => a.position.row < L.length ∧
      lineAt L a.position.row = a.content ∧ 2 ≤ L.length

/-- Undo-coherence of an undo stack (top at head) with the current lines. -/
def UC : List Action → List Line → Prop
  | [], _ => True
  | a :: s, L => G a L ∧ UC s (undoLines a L)

/-- Redo-coherence of a redo stack (top at head) with the current lines. -/
def RC : List Action → List Line → Prop
  | [], _ => True
  | a :: s, L => H a L ∧ RC s (redoLines a L)

/-- The buffer invariant: at least one line, and coherent history stacks. -/
def Inv (b : Buffer) : Prop :=
  1 ≤ b.lines.length ∧ UC b.undo_stack b.lines ∧ RC b.redo_stack b.lines

/-! ### `Buffer::from_content` -/
/-- Split on `'\n'`, keeping a (possibly empty) final segment. -/
def splitNL : List Char → List Line
  | [] => [[]]
  | c :: rest =>
    if c = '\n' then [] :: splitNL rest
    else
      match splitNL rest with
      | [] => [[c]]
      | l :: ls => (c :: l) :: ls

/-- Rust `str::lines()` over the characters of the content: split on `'\n'`,
with a trailing newline producing no trailing empty line (`"\r\n"` sequences
are not modelled; the embedded claims never involve `'\r'`). -/
def rustLines (s : List Char) : List Line :=
  if s.getLast? = some '\n' then (splitNL s).dropLast else splitNL s

/-- `Buffer::from_content(content)`. -/
def Buffer.from_content (content : List Char) : Buffer :=
  if content.isEmpty then ⟨[[]], false, [], []⟩
  else ⟨rustLines content, false, [], []⟩

/-- The states of an `editor::buffer::Buffer` reachable through its public
API: construction by `new`/`from_content` followed by any sequence of
`insert_char`, `delete_char`, `insert_line`, `delete_line`, `undo`, `redo`,
and `mark_saved` calls (with arbitrary arguments; failing calls leave the
state unchanged and are covered too). -/
inductive Reachable : Buffer → Prop where
  | new_ : Reachable Buffer.new
  | from_content (content : List Char) : Reachable (Buffer.from_content content)
  | insert_char {b} (pos : Position) (ch : Char) :
      Reachable b → Reachable (b.insert_char pos ch).2
  | delete_char {b} (pos : Position) :
      Reachable b → Reachable (b.delete_char pos).2
  | insert_line {b} (row : Nat) :
      Reachable b → Reachable (b.insert_line row).2
  | delete_line {b} (row : Nat) :
      Reachable b → Reachable (b.delete_line row).2
  | undo {b} : Reachable b → Reachable (b.undo).2
  | redo {b} : Reachable b → Reachable (b.redo).2
  | mark_saved {b} : Reachable b → Reachable b.mark_saved

/-! ### `insert_char`ⁿ then `undo`ⁿ (for the §8 round-trip property) -/
/-- A sequence of `insert_char` calls; `none` if any of them fails. -/
def applyInserts : Buffer → List (Position × Char) → Option Buffer
  | b, [] => some b
  | b, (p, ch) :: rest =>
    match b.insert_char p ch with
    | (.ok _, b') => applyInserts b' rest
    | (.error _, _) => none

/-- `n` consecutive `undo` calls (each keeping the resulting state). -/
def undoN : Nat → Buffer → Buffer
  | 0, b => b
  | n + 1, b => ((undoN n b).undo).2

end Ed


/-! ## Shared key-event model (crossterm `KeyEvent`)

Only `code` and `modifiers` are matched by any embedded code path; the
`kind` and `state` fields are ignored by every Rust pattern involved and are
omitted.  `KeyModifiers` is a bitflag set; the three flags that the code
ever tests are kept. -/
inductive KeyCode where
  | char (c : Char)
  | esc
  | enter
  | backspace
  | tab
  | left
  | down
  | up
  | right
  | other
deriving DecidableEq

structure KeyModifiers where
  shift : Bool
  control : Bool
  alt : Bool
deriving DecidableEq

def KeyModifiers.NONE : KeyModifiers := ⟨false, false, false⟩

def KeyModifiers.SHIFT : KeyModifiers := ⟨true, false, false⟩

def KeyModifiers.CONTROL : KeyModifiers := ⟨false, true, false⟩

structure KeyEvent where
  code : KeyCode
  modifiers : KeyModifiers
deriving DecidableEq

namespace Domain

/-! ## Embedding of `src/domain/text_buffer.rs`, `src/domain/cursor.rs` and
`src/domain/editor_mode.rs` -/
/-- `src/domain/text_buffer.rs`: `enum ActionType { Insert, Delete, Replace }`. -/
inductive ActionType where
  | insert
  | delete
  | replace
deriving DecidableEq

/-- `src/domain/text_buffer.rs`: `struct Action { action_type, position, content }`. -/
structure Action where
  action_type : ActionType
  position : Nat × Nat
  content : List Char
deriving DecidableEq

/-- The `Err(String)` messages of `TextBuffer`, as a datatype carrying the
formatted-in data (`format!("Row {} out of bounds", row)` etc.). -/
inductive TBError where
  | rowOutOfBounds (row : Nat)
  | colOutOfBounds (col row : Nat)
  | nothingToUndo
  | nothingToRedo
deriving DecidableEq

/-- `src/domain/text_buffer.rs`: `struct TextBuffer` (the `file_path` field
carries no editing behaviour and is omitted; stack tops at the list head). -/
structure TextBuffer where
  lines : List (List Char)
  modified : Bool
  undo_stack : List Action
  redo_stack : List Action
deriving DecidableEq

/-- `TextBuffer::new()`. -/
def TextBuffer.new : TextBuffer := ⟨[[]], false, [], []⟩

/-- `TextBuffer::line_count`. -/
def TextBuffer.line_count (b : TextBuffer) : Nat := b.lines.length

/-- `TextBuffer::get_line(index)` (`Option<&String>`). -/
def TextBuffer.get_line (b : TextBuffer) (index : Nat) : Option (List Char) :=
  b.lines.get? index

/-- `TextBuffer::get_line_length(index)` (`map_or(0, len)`). -/
def TextBuffer.get_line_length (b : TextBuffer) (index : Nat) : Nat :=
  (b.lines.getD index []).length

/-- `TextBuffer::is_modified`. -/
def TextBuffer.is_modified (b : TextBuffer) : Bool := b.modified

/-- `TextBuffer::insert_char(row, col, ch)`. -/
def TextBuffer.insert_char (b : TextBuffer) (row col : Nat) (ch : Char) :
    Except TBError Unit × TextBuffer :=
  if row ≥ b.lines.length then
    (.error (.rowOutOfBounds row), b)
  else
    let line := b.lines.getD row []
    if col > line.length then
      (.error (.colOutOfBounds col row), b)
    else
      let a : Action := ⟨.insert, (row, col), [ch]⟩
      (.ok (), { b with lines := b.lines.set row (line.insertIdx col ch),
                        modified := true,
                        undo_stack := a :: b.undo_stack,
                        redo_stack := [] })

/-- `TextBuffer::delete_char(row, col)`. -/
def TextBuffer.delete_char (b : TextBuffer) (row col : Nat) :
    Except TBError (Option Char) × TextBuffer :=
  if row ≥ b.lines.length then
    (.error (.rowOutOfBounds row), b)
  else
    let line := b.lines.getD row []
    if col ≥ line.length then
      (.ok none, b)
    else
      let deleted := line.getD col ' '
      let a : Action := ⟨.delete, (row, col), [deleted]⟩
      (.ok (some deleted),
        { b with lines := b.lines.set row (line.eraseIdx col),
                 modified := true,
                 undo_stack := a :: b.undo_stack,
                 redo_stack := [] })

/-- `TextBuffer::insert_line(row)` (records an `Insert` action whose content
is the marker string `"\n"`). -/
def TextBuffer.insert_line (b : TextBuffer) (row : Nat) :
    Except TBError Unit × TextBuffer :=
  if row > b.lines.length then
    (.error (.rowOutOfBounds row), b)
  else
    let a : Action := ⟨.insert, (row, 0), ['\n']⟩
    (.ok (), { b with lines := b.lines.insertIdx row [],
                      modified := true,
                      undo_stack := a :: b.undo_stack,
                      redo_stack := [] })

/-- `TextBuffer::delete_line(row)` (records a `Delete` action holding the
removed/cleared text). -/
def TextBuffer.delete_line (b : TextBuffer) (row : Nat) :
    Except TBError (Option (List Char)) × TextBuffer :=
  if row ≥ b.lines.length then
    (.error (.rowOutOfBounds row), b)
  else if b.lines.length = 1 then
    let content := b.lines.getD 0 []
    let a : Action := ⟨.delete, (row, 0), content⟩
    (.ok (some content),
      { b with lines := b.lines.set 0 [], modified := true,
               undo_stack := a :: b.undo_stack, redo_stack := [] })
  else
    let deleted := b.lines.getD row []
    let a : Action := ⟨.delete, (row, 0), deleted⟩
    (.ok (some deleted),
      { b with lines := b.lines.eraseIdx row, modified := true,
               undo_stack := a :: b.undo_stack, redo_stack := [] })

/-- `TextBuffer::from_content(content)` — textually the same `str::lines()`
splitting as the editor buffer's `from_content`, see `Ed.rustLines`. -/
def TextBuffer.from_content (content : List Char) : TextBuffer :=
  if content.isEmpty then ⟨[[]], false, [], []⟩
  else ⟨Ed.rustLines content, false, [], []⟩

/-- `TextBuffer::can_undo`. -/
def TextBuffer.can_undo (b : TextBuffer) : Bool := !b.undo_stack.isEmpty

/-- `TextBuffer::can_redo`. -/
def TextBuffer.can_redo (b : TextBuffer) : Bool := !b.redo_stack.isEmpty

/-- The mutation `TextBuffer::undo` performs on `lines` for one popped
action (`text_buffer.rs` lines 194–221).  An `Insert` whose content equals
the `"\n"` marker removes the whole line at the recorded row; any other
`Insert` removes the single character at the recorded position (when still
in bounds).  A `Delete` whose content contains `'\n'` reinserts the content
(newlines stripped) as a line; any other `Delete` reinserts only the FIRST
character of the stored content — and nothing at all when the content is
empty.  (In the `Delete`-with-newline branch `Vec::insert` would panic on an
out-of-range index; the embedding leaves the list unchanged there, a case no
theorem relies on.) -/
def undoLinesTB (a : Action) (L : List (List Char)) : List (List Char) :=
  match a.action_type with
  | .insert =>
    if a.content = ['\n'] then
      if a.position.1 < L.length then L.eraseIdx a.position.1 else L
    else
      if a.position.1 < L.length ∧
          a.position.2 < (L.getD a.position.1 []).length then
        L.set a.position.1 ((L.getD a.position.1 []).eraseIdx a.position.2)
      else L
  | .delete =>
    if a.content.contains '\n' then
      L.insertIdx a.position.1 (a.content.filter (fun c => c != '\n'))
    else
      if a.position.1 < L.length ∧
          a.position.2 ≤ (L.getD a.position.1 []).length then
        match a.content.head? with
        | some ch =>
          L.set a.position.1 ((L.getD a.position.1 []).insertIdx a.position.2 ch)
        | none => L
      else L
  | .replace => L

/-- The mutation `TextBuffer::redo` performs on `lines` for one popped
action (`text_buffer.rs` lines 232–258); like `undoLinesTB`, a non-marker
action replays only the first character of the stored content. -/
def redoLinesTB (a : Action) (L : List (List Char)) : List (List Char) :=
  match a.action_type with
  | .insert =>
    if a.content = ['\n'] then
      L.insertIdx a.position.1 []
    else
      if a.position.1 < L.length ∧
          a.position.2 ≤ (L.getD a.position.1 []).length then
        match a.content.head? with
        | some ch =>
          L.set a.position.1 ((L.getD a.position.1 []).insertIdx a.position.2 ch)
        | none => L
      else L
  | .delete =>
    if a.content.contains '\n' then
      if a.position.1 < L.length then L.eraseIdx a.position.1 else L
    else
      if a.position.1 < L.length ∧
          a.position.2 < (L.getD a.position.1 []).length then
        L.set a.position.1 ((L.getD a.position.1 []).eraseIdx a.position.2)
      else L
  | .replace => L

/-- `TextBuffer::undo` (`text_buffer.rs` lines 192–228): pop, reverse-apply
via `undoLinesTB`, push onto the redo stack, recompute `modified` as "undo
stack non-empty". -/
def TextBuffer.undo (b : TextBuffer) : Except TBError Unit × TextBuffer :=
  match b.undo_stack with
  | [] => (.error .nothingToUndo, b)
  | a :: rest =>
    (.ok (), ⟨undoLinesTB a b.lines, !rest.isEmpty, rest, a :: b.redo_stack⟩)

/-- `TextBuffer::redo` (`text_buffer.rs` lines 230–265): pop, re-apply via
`redoLinesTB`, push onto the undo stack, set `modified = true`. -/
def TextBuffer.redo (b : TextBuffer) : Except TBError Unit × TextBuffer :=
  match b.redo_stack with
  | [] => (.error .nothingToRedo, b)
  | a :: rest =>
    (.ok (), ⟨redoLinesTB a b.lines, true, a :: b.undo_stack, rest⟩)

/-- `src/domain/cursor.rs`: `CursorPosition` (all movements clamp silently). -/
structure CursorPosition where
  row : Nat
  col : Nat
deriving DecidableEq

/-- `CursorPosition::move_right(line_length)`. -/
def CursorPosition.move_right (c : CursorPosition) (line_length : Nat) :
    CursorPosition :=
  if c.col < line_length then { c with col := c.col + 1 } else c

/-- `CursorPosition::move_left`. -/
def CursorPosition.move_left (c : CursorPosition) : CursorPosition :=
  if c.col > 0 then { c with col := c.col - 1 } else c

/-- `CursorPosition::move_up`. -/
def CursorPosition.move_up (c : CursorPosition) : CursorPosition :=
  if c.row > 0 then { c with row := c.row - 1 } else c

/-- `CursorPosition::move_down(buffer_height)` (`buffer_height.saturating_sub(1)`
is Nat subtraction). -/
def CursorPosition.move_down (c : CursorPosition) (buffer_height : Nat) :
    CursorPosition :=
  if c.row < buffer_height - 1 then { c with row := c.row + 1 } else c

/-- `CursorPosition::move_to_line_start`. -/
def CursorPosition.move_to_line_start (c : CursorPosition) : CursorPosition :=
  { c with col := 0 }

/-- `CursorPosition::move_to_line_end(line_length)`. -/
def CursorPosition.move_to_line_end (c : CursorPosition) (line_length : Nat) :
    CursorPosition :=
  { c with col := line_length }

/-- `src/domain/editor_mode.rs`: `enum EditorMode`. -/
inductive EditorMode where
  | normal
  | insert
  | visual
  | command
deriving DecidableEq

/-- `src/domain/editor_mode.rs`: `enum TransitionTrigger`. -/
inductive TransitionTrigger where
  | key (c : Char)
  | escape
  | command (s : List Char)
deriving DecidableEq

/-- `src/domain/editor_mode.rs`: `struct ModeTransition` (`from` and `to`
are Lean keywords, so the fields are called `from_` and `to_`). -/
structure ModeTransition where
  from_ : EditorMode
  to_ : EditorMode
  trigger : TransitionTrigger
deriving DecidableEq

/-- The transition table built by `ModeManager::new()`.  The `transitions`
field of `ModeManager` is initialised to this list by its only constructor
and never mutated, so it is embedded as a constant. -/
def modeTransitions : List ModeTransition :=
  [⟨.normal, .insert, .key 'i'⟩,
   ⟨.normal, .insert, .key 'a'⟩,
   ⟨.normal, .insert, .key 'o'⟩,
   ⟨.normal, .insert, .key 'O'⟩,
   ⟨.normal, .visual, .key 'v'⟩,
   ⟨.normal, .command, .key ':'⟩,
   ⟨.insert, .normal, .escape⟩,
   ⟨.visual, .normal, .escape⟩,
   ⟨.command, .normal, .escape⟩]

/-- `src/domain/editor_mode.rs`: `struct ModeManager` (minus the constant
`transitions` field, see `modeTransitions`). -/
structure ModeManager where
  current_mode : EditorMode
  previous_mode : Option EditorMode
deriving DecidableEq

/-- `ModeManager::new()`. -/
def ModeManager.new : ModeManager := ⟨.normal, none⟩

/-- `ModeManager::transition_with_key(key)`: the first matching table entry
fires; returns whether a transition happened.  (The Rust `for` loop over
`self.transitions` is `List.find?`; the derived `PartialEq` comparisons are
embedded as decidable propositional equality.) -/
def ModeManager.transition_with_key (m : ModeManager) (key : Char) :
    Bool × ModeManager :=
  match modeTransitions.find?
      (fun t => decide (t.from_ = m.current_mode ∧ t.trigger = .key key)) with
  | some t => (true, ⟨t.to_, some m.current_mode⟩)
  | none => (false, m)

/-- `ModeManager::transition_with_escape()`. -/
def ModeManager.transition_with_escape (m : ModeManager) :
    Bool × ModeManager :=
  match modeTransitions.find?
      (fun t => decide (t.from_ = m.current_mode ∧ t.trigger = .escape)) with
  | some t => (true, ⟨t.to_, some m.current_mode⟩)
  | none => (false, m)

end Domain

namespace App

/-! ## Embedding of `src/application/vim_bindings.rs` and the relevant parts
of `src/application/editor_service.rs` -/
/-- `src/application/vim_bindings.rs`: `enum VimCommand`. -/
inductive VimCommand where
  | moveLeft
  | moveRight
  | moveUp
  | moveDown
  | moveWordForward
  | moveWordBackward
  | moveLineStart
  | moveLineEnd
  | moveBufferStart
  | moveBufferEnd
  | enterInsertMode
  | enterInsertModeAfter
  | enterInsertModeNewLine
  | enterInsertModeNewLineAbove
  | enterVisualMode
  | enterCommandMode
  | exitToNormal
  | insertChar (c : Char)
  | deleteChar
  | backspace
  | deleteLine
  | undo
  | redo
  | save
  | quit
  | saveAndQuit
  | forceQuit
  | pageUp
  | pageDown
  | commandChar (c : Char)
  | commandBackspace
  | commandExecute
  | unknown
deriving DecidableEq

/-- `src/application/vim_bindings.rs`: `struct VimBindings { mode_manager }`. -/
structure VimBindings where
  mode_manager : Domain.ModeManager
deriving DecidableEq

/-- `VimBindings::new()`. -/
def VimBindings.new : VimBindings := ⟨Domain.ModeManager.new⟩

/-- `VimBindings::parse_normal_mode_key` (note that for the mode-transition
keys it calls `ModeManager::transition_with_key` as a side effect, returning
the updated bindings state). -/
def parse_normal_mode_key (vb : VimBindings) (k : KeyEvent) :
    VimCommand × VimBindings :=
  match k.code with
  | .char c =>
    if c = 'h' ∧ k.modifiers = KeyModifiers.NONE then (.moveLeft, vb)
    else if c = 'j' ∧ k.modifiers = KeyModifiers.NONE then (.moveDown, vb)
    else if c = 'k' ∧ k.modifiers = KeyModifiers.NONE then (.moveUp, vb)
    else if c = 'l' ∧ k.modifiers = KeyModifiers.NONE then (.moveRight, vb)
    else if c = 'w' ∧ k.modifiers = KeyModifiers.NONE then (.moveWordForward, vb)
    else if c = 'b' ∧ k.modifiers = KeyModifiers.NONE then (.moveWordBackward, vb)
    else if c = '0' ∧ k.modifiers = KeyModifiers.NONE then (.moveLineStart, vb)
    else if c = '$' ∧ k.modifiers = KeyModifiers.NONE then (.moveLineEnd, vb)
    else if c = 'g' ∧ k.modifiers = KeyModifiers.NONE then (.moveBufferStart, vb)
    else if c = 'G' ∧ k.modifiers = KeyModifiers.SHIFT then (.moveBufferEnd, vb)
    else if c = 'i' ∧ k.modifiers = KeyModifiers.NONE then
      (.enterInsertMode, ⟨(vb.mode_manager.transition_with_key 'i').2⟩)
    else if c = 'a' ∧ k.modifiers = KeyModifiers.NONE then
      (.enterInsertModeAfter, ⟨(vb.mode_manager.transition_with_key 'a').2⟩)
    else if c = 'o' ∧ k.modifiers = KeyModifiers.NONE then
      (.enterInsertModeNewLine, ⟨(vb.mode_manager.transition_with_key 'o').2⟩)
    else if c = 'O' ∧ k.modifiers = KeyModifiers.SHIFT then
      (.enterInsertModeNewLineAbove, ⟨(vb.mode_manager.transition_with_key 'O').2⟩)
    else if c = 'v' ∧ k.modifiers = KeyModifiers.NONE then
      (.enterVisualMode, ⟨(vb.mode_manager.transition_with_key 'v').2⟩)
    else if c = ':' ∧ k.modifiers = KeyModifiers.NONE then
      (.enterCommandMode, ⟨(vb.mode_manager.transition_with_key ':').2⟩)
    else if c = 'x' ∧ k.modifiers = KeyModifiers.NONE then (.deleteChar, vb)
    else if c = 'd' ∧ k.modifiers = KeyModifiers.NONE then (.deleteLine, vb)
    else if c = 'u' ∧ k.modifiers = KeyModifiers.NONE then (.undo, vb)
    else if c = 'r' ∧ k.modifiers = KeyModifiers.CONTROL then (.redo, vb)
    else if c = 'f' ∧ k.modifiers = KeyModifiers.CONTROL then (.pageDown, vb)
    else if c = 'b' ∧ k.modifiers = KeyModifiers.CONTROL then (.pageUp, vb)
    else (.unknown, vb)
  | _ => (.unknown, vb)

/-- `VimBindings::parse_insert_mode_key`. -/
def parse_insert_mode_key (vb : VimBindings) (k : KeyEvent) :
    VimCommand × VimBindings :=
  match k.code, k.modifiers with
  | .esc, _ =>
    (.exitToNormal, ⟨(vb.mode_manager.transition_with_escape).2⟩)
  | .char c, ⟨false, false, false⟩ => (.insertChar c, vb)
  | .char c, ⟨true, false, false⟩ => (.insertChar c, vb)
  | .backspace, _ => (.backspace, vb)
  | .enter, _ => (.insertChar '\n', vb)
  | .tab, _ => (.insertChar '\t', vb)
  | _, _ => (.unknown, vb)

/-- `VimBindings::parse_visual_mode_key`. -/
def parse_visual_mode_key (vb : VimBindings) (k : KeyEvent) :
    VimCommand × VimBindings :=
  match k.code with
  | .esc =>
    (.exitToNormal, ⟨(vb.mode_manager.transition_with_escape).2⟩)
  | .char c =>
    if c = 'h' ∧ k.modifiers = KeyModifiers.NONE then (.moveLeft, vb)
    else if c = 'j' ∧ k.modifiers = KeyModifiers.NONE then (.moveDown, vb)
    else if c = 'k' ∧ k.modifiers = KeyModifiers.NONE then (.moveUp, vb)
    else if c = 'l' ∧ k.modifiers = KeyModifiers.NONE then (.moveRight, vb)
    else (.unknown, vb)
  | _ => (.unknown, vb)

/-- `VimBindings::parse_command_mode_key`. -/
def parse_command_mode_key (vb : VimBindings) (k : KeyEvent) :
    VimCommand × VimBindings :=
  match k.code, k.modifiers with
  | .esc, _ =>
    (.exitToNormal, ⟨(vb.mode_manager.transition_with_escape).2⟩)
  | .enter, _ => (.commandExecute, vb)
  | .backspace, _ => (.commandBackspace, vb)
  | .char c, ⟨false, false, false⟩ => (.commandChar c, vb)
  | .char c, ⟨true, false, false⟩ => (.commandChar c, vb)
  | _, _ => (.unknown, vb)

/-- `VimBindings::parse_key(key_event)` — takes `&mut self`: the lookup can
change the mode as a side effect (see `parse_normal_mode_key`). -/
def parse_key (vb : VimBindings) (k : KeyEvent) : VimCommand × VimBindings :=
  match vb.mode_manager.current_mode with
  | .normal => parse_normal_mode_key vb k
  | .insert => parse_insert_mode_key vb k
  | .visual => parse_visual_mode_key vb k
  | .command => parse_command_mode_key vb k

/-- The `for ch in current_line.chars()` loop of the Backspace arm of
`VimBindings::execute_command`: insert each character at the cursor and
advance the column, propagating errors (`?`). -/
def insertLoopChars : List Char → Nat → Nat → Domain.TextBuffer →
    Except Domain.TBError Unit × Nat × Domain.TextBuffer
  | [], _, col, b => (.ok (), col, b)
  | c :: rest, row, col, b =>
    match b.insert_char row col c with
    | (.ok _, b') => insertLoopChars rest row (col + 1) b'
    | (.error e, b') => (.error e, col, b')

/-- The `VimCommand::Backspace` arm of `VimBindings::execute_command`
(lines 399–418 of `src/application/vim_bindings.rs`), acting on the cursor
and the buffer. -/
def executeBackspace (cursor : Domain.CursorPosition)
    (buffer : Domain.TextBuffer) :
    Except Domain.TBError Unit × Domain.CursorPosition × Domain.TextBuffer :=
  if cursor.col > 0 then
    let cursor' := cursor.move_left
    match buffer.delete_char cursor'.row cursor'.col with
    | (.ok _, b') => (.ok (), cursor', b')
    | (.error e, b') => (.error e, cursor', b')
  else if cursor.row > 0 then
    let current_line := (buffer.get_line cursor.row).getD []
    let prev_line_length := buffer.get_line_length (cursor.row - 1)
    match buffer.delete_line cursor.row with
    | (.ok _, b₁) =>
      match insertLoopChars current_line (cursor.row - 1) prev_line_length b₁ with
      | (.ok _, col', b₂) => (.ok (), ⟨cursor.row - 1, col'⟩, b₂)
      | (.error e, col', b₂) => (.error e, ⟨cursor.row - 1, col'⟩, b₂)
    | (.error e, b₁) => (.error e, cursor, b₁)
  else (.ok (), cursor, buffer)

/-- `EditorService::adjust_cursor_position` (lines 273–292 of
`src/application/editor_service.rs`): clamp the row into the buffer, then
clamp the column to the mode-appropriate bound (`line_length` in insert
mode, `line_length.saturating_sub(1).max(0)` otherwise). -/
def adjust_cursor_position (cursor : Domain.CursorPosition)
    (buffer : Domain.TextBuffer) (mode : Domain.EditorMode) :
    Domain.CursorPosition :=
  let buffer_height := buffer.line_count
  let row := if 0 < buffer_height ∧ cursor.row ≥ buffer_height then
      buffer_height - 1
    else cursor.row
  let line_length := buffer.get_line_length row
  let is_insert_mode := mode = Domain.EditorMode.insert
  let max_col := if is_insert_mode then line_length
    else max (line_length - 1) 0
  let col := if cursor.col > max_col then max_col else cursor.col
  ⟨row, col⟩

end App

namespace Ed

/-! ## Embedding of `src/vim/mode.rs`, `src/vim/keymap.rs`, the
`MoveDown`/`MoveUp` arms of `src/vim/command.rs`, the movement methods of
`src/editor/cursor.rs`, and `src/main.rs`'s cursor adjustment -/
/-- `Position::move_right(line_length)` (`Result`-returning discipline). -/
def Position.move_right (p : Position) (line_length : Nat) :
    Except EditorError Unit × Position :=
  if p.col < line_length then (.ok (), { p with col := p.col + 1 })
  else (.error (.outOfBounds p.row (p.col + 1)), p)

/-- `Position::move_left`. -/
def Position.move_left (p : Position) : Except EditorError Unit × Position :=
  if p.col > 0 then (.ok (), { p with col := p.col - 1 })
  else (.error (.outOfBounds p.row 0), p)

/-- `Position::move_down(total_lines)`. -/
def Position.move_down (p : Position) (total_lines : Nat) :
    Except EditorError Unit × Position :=
  if p.row + 1 < total_lines then (.ok (), { p with row := p.row + 1 })
  else (.error (.outOfBounds (p.row + 1) p.col), p)

/-- `Position::move_up`. -/
def Position.move_up (p : Position) : Except EditorError Unit × Position :=
  if p.row > 0 then (.ok (), { p with row := p.row - 1 })
  else (.error (.outOfBounds 0 p.col), p)

/-- `Position::clamp_to_line(line_length)`. -/
def Position.clamp_to_line (p : Position) (line_length : Nat) : Position :=
  if p.col > line_length then { p with col := line_length } else p

end Ed

namespace Vim

/-- `src/vim/mode.rs`: `enum Mode` (Visual carries the selection start,
Command the in-progress input). -/
inductive Mode where
  | normal
  | insert
  | visual (start : Ed.Position)
  | command (input : List Char)
deriving DecidableEq

/-- `src/vim/mode.rs`: `struct ModeManager { current, previous }`. -/
structure ModeManager where
  current : Mode
  previous : Option Mode
deriving DecidableEq

/-- `ModeManager::new()`. -/
def ModeManager.new : ModeManager := ⟨.normal, none⟩

/-- `ModeManager::can_transition_to(target)`. -/
def ModeManager.can_transition_to (m : ModeManager) (target : Mode) : Bool :=
  match m.current, target with
  | .normal, _ => true
  | .insert, .normal => true
  | .visual _, .normal => true
  | .visual _, .insert => true
  | .command _, .normal => true
  | _, _ => false

/-- `ModeManager::transition_to(target)` (silently a no-op when illegal). -/
def ModeManager.transition_to (m : ModeManager) (target : Mode) : ModeManager :=
  if m.can_transition_to target then ⟨target, some m.current⟩ else m

/-- `src/vim/keymap.rs`: `struct Key { code, modifiers }`. -/
structure Key where
  code : KeyCode
  modifiers : KeyModifiers
deriving DecidableEq

/-- `src/vim/command.rs`: `enum VimCommand`.  The last four variants are
referenced by `src/vim/keymap.rs` and `src/main.rs` but are missing from the
enum declaration in the `command.rs` snapshot; they are included here so
that the key mapping is expressible. -/
inductive VimCommand where
  | moveLeft
  | moveDown
  | moveUp
  | moveRight
  | moveLineStart
  | moveLineEnd
  | moveBufferStart
  | moveBufferEnd
  | moveWordForward
  | moveWordBackward
  | insertChar (c : Char)
  | deleteChar
  | deleteLine
  | newLine
  | enterInsert
  | enterInsertAfter
  | enterInsertNewLine
  | enterVisual
  | enterCommand
  | exitToNormal
  | save
  | quit
  | saveAndQuit
  | forceQuit
  | undo
  | redo
  | noop
  | deleteCharBackward
  | executeCommand (s : List Char)
  | commandInput (c : Char)
  | commandBackspace
deriving DecidableEq

/-- `KeyMapper::map_ctrl_keys`. -/
def map_ctrl_keys (key : Key) : VimCommand :=
  match key.code with
  | .char 'r' => .redo
  | .char 'f' => .moveBufferEnd
  | .char 'b' => .moveBufferStart
  | _ => .noop

/-- `KeyMapper::map_normal_mode`. -/
def map_normal_mode (key : Key) : VimCommand :=
  if key.modifiers.control then map_ctrl_keys key
  else
    match key.code with
    | .char 'h' => .moveLeft
    | .char 'j' => .moveDown
    | .char 'k' => .moveUp
    | .char 'l' => .moveRight
    | .char '0' => .moveLineStart
    | .char '$' => .moveLineEnd
    | .char 'w' => .moveWordForward
    | .char 'b' => .moveWordBackward
    | .char 'i' => .enterInsert
    | .char 'a' => .enterInsertAfter
    | .char 'o' => .enterInsertNewLine
    | .char 'v' => .enterVisual
    | .char ':' => .enterCommand
    | .char 'x' => .deleteChar
    | .char 'd' => .deleteLine
    | .char 'u' => .undo
    | .left => .moveLeft
    | .down => .moveDown
    | .up => .moveUp
    | .right => .moveRight
    | _ => .noop

/-- `KeyMapper::map_insert_mode`. -/
def map_insert_mode (key : Key) : VimCommand :=
  match key.code with
  | .esc => .exitToNormal
  | .char c => .insertChar c
  | .enter => .newLine
  | .backspace => .deleteCharBackward
  | _ => .noop

/-- `KeyMapper::map_visual_mode`. -/
def map_visual_mode (key : Key) : VimCommand :=
  match key.code with
  | .esc => .exitToNormal
  | .char 'i' => .enterInsert
  | .char 'h' => .moveLeft
  | .char 'j' => .moveDown
  | .char 'k' => .moveUp
  | .char 'l' => .moveRight
  | _ => .noop

/-- `KeyMapper::map_command_mode`. -/
def map_command_mode (key : Key) (mode : Mode) : VimCommand :=
  match key.code with
  | .esc => .exitToNormal
  | .enter =>
    match mode with
    | .command input => .executeCommand input
    | _ => .exitToNormal
  | .char c => .commandInput c
  | .backspace => .commandBackspace
  | _ => .noop

/-- `KeyMapper::map_key(key, mode)` — a pure lookup (`&self`, no state). -/
def map_key (key : Key) (mode : Mode) : VimCommand :=
  match mode with
  | .normal => map_normal_mode key
  | .insert => map_insert_mode key
  | .visual _ => map_visual_mode key
  | .command _ => map_command_mode key mode

/-- The `MoveDown` arm of `VimCommand::execute` (`src/vim/command.rs`
lines 53–61): move down ignoring a boundary error, then clamp the column to
the new row's length. -/
def execute_move_down (buffer : Ed.Buffer) (cursor : Ed.Position) :
    Ed.Position :=
  let total_lines := buffer.line_count
  let cursor₁ := (cursor.move_down total_lines).2
  match buffer.line_length cursor₁.row with
  | .ok line_length => cursor₁.clamp_to_line line_length
  | .error _ => cursor₁

/-- The `MoveUp` arm of `VimCommand::execute` (`src/vim/command.rs`
lines 63–71). -/
def execute_move_up (buffer : Ed.Buffer) (cursor : Ed.Position) :
    Ed.Position :=
  let cursor₁ := (cursor.move_up).2
  match buffer.line_length cursor₁.row with
  | .ok line_length => cursor₁.clamp_to_line line_length
  | .error _ => cursor₁

end Vim

namespace Main

/-- `Editor::adjust_cursor_position` from `src/main.rs`: clamp the row into
the buffer, then clamp the column to the current line's length (with no mode
distinction). -/
def adjust_cursor_position (buffer : Ed.Buffer) (cursor : Ed.Position) :
    Ed.Position :=
  let total_lines := buffer.line_count
  let cursor₁ := if cursor.row ≥ total_lines then
      { cursor with row := total_lines - 1 }
    else cursor
  match buffer.line_length cursor₁.row with
  | .ok line_length => cursor₁.clamp_to_line line_length
  | .error _ => cursor₁

end Main

namespace SpecModel

/-! ## Spec-modelled transition table (for the C7 refinement comparison).
These three definitions are written from the spec's words (the §4.3 table),
not from the source, and are compared against the source-derived
`Domain.ModeManager` / `Vim.ModeManager` operations. -/
/-- §4.3 table, key triggers: Normal→Insert on `i`/`a`/`o`/`O`,
Normal→Visual on `v`, Normal→Command on `:`; nothing else. -/
def transitionKey (m : Domain.EditorMode) (c : Char) :
    Option Domain.EditorMode :=
  if m = .normal then
    if c = 'i' ∨ c = 'a' ∨ c = 'o' ∨ c = 'O' then some .insert
    else if c = 'v' then some .visual
    else if c = ':' then some .command
    else none
  else none

/-- §4.3 table, Escape trigger: Insert/Visual/Command→Normal; nothing else. -/
def transitionEscape (m : Domain.EditorMode) : Option Domain.EditorMode :=
  match m with
  | .insert => some .normal
  | .visual => some .normal
  | .command => some .normal
  | .normal => none

/-- The §4.3 table read as (from, to) pairs, including the explicitly
sanctioned design-variant row Visual→Insert. -/
def allowedTarget (f t : Vim.Mode) : Bool :=
  match f, t with
  | .normal, .insert => true
  | .normal, .visual _ => true
  | .normal, .command _ => true
  | .insert, .normal => true
  | .visual _, .normal => true
  | .visual _, .insert => true
  | .command _, .normal => true
  | _, _ => false

end SpecModel

/-! ## Theorems -/

namespace ListFacts

theorem set_getD_self {α : Type} (d : α) :
    ∀ (l : List α) (r : Nat), r < l.length → l.set r (l.getD r d) = l
  | [], r, h => by simp at h
  | a :: l, 0, _ => rfl
  | a :: l, r + 1, h => by
    rw [List.getD_cons_succ]
    show a :: l.set r (l.getD r d) = a :: l
    rw [set_getD_self d l r (by simpa using h)]

theorem insertIdx_eraseIdx_getD {α : Type} (d : α) :
    ∀ (l : List α) (r : Nat), r < l.length →
      (l.eraseIdx r).insertIdx r (l.getD r d) = l
  | [], r, h => by simp at h
  | a :: l, 0, _ => rfl
  | a :: l, r + 1, h => by
    rw [List.getD_cons_succ]
    show (a :: l.eraseIdx r).insertIdx (r + 1) (l.getD r d) = a :: l
    rw [List.insertIdx_succ_cons, insertIdx_eraseIdx_getD d l r (by simpa using h)]

theorem insertIdx_append_left {α : Type} (x : α) :
    ∀ (l₁ l₂ : List α) (r : Nat), r ≤ l₁.length →
      (l₁ ++ l₂).insertIdx r x = l₁.insertIdx r x ++ l₂
  | _, _, 0, _ => rfl
  | [], _, r + 1, h => by simp at h
  | a :: l₁, l₂, r + 1, h => by
    show a :: (l₁ ++ l₂).insertIdx r x = a :: (l₁.insertIdx r x ++ l₂)
    rw [insertIdx_append_left x l₁ l₂ r (by simpa using h)]

theorem getD_append_left {α : Type} (d : α) :
    ∀ (l₁ l₂ : List α) (r : Nat), r < l₁.length →
      (l₁ ++ l₂).getD r d = l₁.getD r d
  | [], _, r, h => by simp at h
  | a :: l₁, l₂, 0, _ => rfl
  | a :: l₁, l₂, r + 1, h => by
    rw [List.cons_append, List.getD_cons_succ, List.getD_cons_succ]
    exact getD_append_left d l₁ l₂ r (by simpa using h)

theorem eq_singleton_getD {α : Type} (d : α) :
    ∀ (l : List α), l.length = 1 → l = [l.getD 0 d]
  | [_a], _ => rfl

theorem getD_set_self {α : Type} (d : α) :
    ∀ (l : List α) (r : Nat) (x : α), r < l.length → (l.set r x).getD r d = x
  | [], r, _, h => by simp at h
  | a :: l, 0, x, _ => rfl
  | a :: l, r + 1, x, h => by
    show (a :: l.set r x).getD (r + 1) d = x
    rw [List.getD_cons_succ]
    exact getD_set_self d l r x (by simpa using h)

theorem getD_set_ne {α : Type} (d : α) :
    ∀ (l : List α) (r r' : Nat) (x : α), r ≠ r' →
      (l.set r x).getD r' d = l.getD r' d
  | [], _, _, _, _ => rfl
  | a :: l, 0, 0, x, hne => absurd rfl hne
  | a :: l, 0, r' + 1, x, _ => rfl
  | a :: l, r + 1, 0, x, _ => rfl
  | a :: l, r + 1, r' + 1, x, hne => by
    show (a :: l.set r x).getD (r' + 1) d = (a :: l).getD (r' + 1) d
    rw [List.getD_cons_succ, List.getD_cons_succ]
    exact getD_set_ne d l r r' x (by omega)

theorem getD_eraseIdx_lt {α : Type} (d : α) :
    ∀ (l : List α) (r r' : Nat), r' < r →
      (l.eraseIdx r).getD r' d = l.getD r' d
  | [], _, _, _ => rfl
  | a :: l, 0, r', h => by omega
  | a :: l, r + 1, 0, _ => rfl
  | a :: l, r + 1, r' + 1, h => by
    show (a :: l.eraseIdx r).getD (r' + 1) d = (a :: l).getD (r' + 1) d
    rw [List.getD_cons_succ, List.getD_cons_succ]
    exact getD_eraseIdx_lt d l r r' (by omega)

theorem getD_eraseIdx_ge {α : Type} (d : α) :
    ∀ (l : List α) (r : Nat), (l.eraseIdx r).getD r d = l.getD (r + 1) d
  | [], _ => rfl
  | _ :: _, 0 => rfl
  | a :: l, r + 1 => by
    show (a :: l.eraseIdx r).getD (r + 1) d = (a :: l).getD (r + 2) d
    rw [List.getD_cons_succ, List.getD_cons_succ]
    exact getD_eraseIdx_ge d l r

theorem getD_insertIdx_self {α : Type} (d : α) :
    ∀ (l : List α) (r : Nat) (x : α), r ≤ l.length →
      (l.insertIdx r x).getD r d = x
  | _, 0, _, _ => rfl
  | [], r + 1, x, h => by simp at h
  | a :: l, r + 1, x, h => by
    rw [List.insertIdx_succ_cons, List.getD_cons_succ]
    exact getD_insertIdx_self d l r x (by simpa using h)

end ListFacts

namespace Ed

theorem length_undoLines {a : Action} {L : List Line} (hG : G a L)
    (hL : 1 ≤ L.length) : 1 ≤ (undoLines a L).length := by
  obtain ⟨t, ⟨r, c⟩, cnt⟩ := a
  cases t <;> simp only [G, undoLines] at *
  · split
    · simpa using hL
    · exact hL
  · split
    · split <;> simpa using hL
    · exact hL
  · obtain ⟨h1, _, _, h4⟩ := hG
    rw [if_pos h1, List.length_eraseIdx_of_lt h1]; omega
  · rw [if_pos hG, List.length_insertIdx _ _ hG]; omega

theorem length_redoLines {a : Action} {L : List Line} (hH : H a L)
    (hL : 1 ≤ L.length) : 1 ≤ (redoLines a L).length := by
  obtain ⟨t, ⟨r, c⟩, cnt⟩ := a
  cases t <;> simp only [H, redoLines] at *
  · split
    · split <;> simpa using hL
    · exact hL
  · split
    · simpa using hL
    · exact hL
  · obtain ⟨h1, _⟩ := hH
    rw [if_pos h1, List.length_insertIdx _ _ h1]; omega
  · obtain ⟨h1, _, h3⟩ := hH
    rw [if_pos h1, List.length_eraseIdx_of_lt h1]; omega

/-- `redo` exactly inverts an `undo` whose guards were exact, and the undone
action becomes exactly re-appliable. -/
theorem undo_exact {a : Action} {L : List Line} (hG : G a L)
    (hL : 1 ≤ L.length) :
    redoLines a (undoLines a L) = L ∧ H a (undoLines a L) := by
  obtain ⟨t, ⟨r, c⟩, cnt⟩ := a
  cases t <;> simp only [G, H, undoLines, redoLines, lineAt] at *
  · -- insert
    obtain ⟨h1, h2, h3⟩ := hG
    have hc : r < L.length ∧ c < (L.getD r []).length := ⟨h1, h2⟩
    have e1 : (L.set r ((L.getD r []).eraseIdx c)).getD r ([] : Line) =
        (L.getD r []).eraseIdx c := ListFacts.getD_set_self [] L r _ h1
    have hlen : ((L.getD r []).eraseIdx c).length = (L.getD r []).length - 1 :=
      List.length_eraseIdx_of_lt h2
    simp only [if_pos hc, List.length_set, e1]
    have hc2 : r < L.length ∧ c ≤ ((L.getD r []).eraseIdx c).length :=
      ⟨h1, by omega⟩
    refine ⟨?_, hc2.1, hc2.2, by rw [h3]; rfl⟩
    rw [if_pos hc2, h3]
    simp only [List.head?_cons]
    rw [List.set_set, ListFacts.insertIdx_eraseIdx_getD ' ' (L.getD r []) c h2,
      ListFacts.set_getD_self [] L r h1]
  · -- delete
    obtain ⟨h1, h2, h3⟩ := hG
    obtain ⟨ch, rfl⟩ : ∃ ch, cnt = [ch] := by
      cases cnt with
      | nil => simp at h3
      | cons x xs => cases xs with
        | nil => exact ⟨x, rfl⟩
        | cons y ys => simp at h3
    have hc : r < L.length ∧ c ≤ (L.getD r []).length := ⟨h1, h2⟩
    have e1 : (L.set r ((L.getD r []).insertIdx c ch)).getD r ([] : Line) =
        (L.getD r []).insertIdx c ch := ListFacts.getD_set_self [] L r _ h1
    have hlen : ((L.getD r []).insertIdx c ch).length = (L.getD r []).length + 1 :=
      List.length_insertIdx c _ h2
    simp only [if_pos hc, List.head?_cons, List.length_set, e1]
    have hc2 : r < L.length ∧ c < ((L.getD r []).insertIdx c ch).length :=
      ⟨h1, by omega⟩
    refine ⟨?_, hc2.1, hc2.2, ?_⟩
    · rw [if_pos hc2, List.set_set, List.eraseIdx_insertIdx c (L.getD r []),
        ListFacts.set_getD_self [] L r h1]
    · rw [ListFacts.getD_insertIdx_self ' ' (L.getD r []) c ch h2]
  · -- insertLine
    obtain ⟨h1, h2, h3, h4⟩ := hG
    have hlen : (L.eraseIdx r).length = L.length - 1 :=
      List.length_eraseIdx_of_lt h1
    simp only [if_pos h1, hlen]
    have hc2 : r ≤ L.length - 1 := by omega
    refine ⟨?_, hc2, h3⟩
    rw [if_pos hc2, h3, ← h2, ListFacts.insertIdx_eraseIdx_getD [] L r h1]
  · -- deleteLine
    have hlen : (L.insertIdx r cnt).length = L.length + 1 :=
      List.length_insertIdx r L hG
    simp only [if_pos hG, hlen]
    have hc2 : r < L.length + 1 := by omega
    refine ⟨?_, hc2, ListFacts.getD_insertIdx_self [] L r cnt hG, by omega⟩
    rw [if_pos hc2, List.eraseIdx_insertIdx r L]

/-- `undo` exactly inverts a `redo` whose guards were exact, and the redone
action becomes exactly reverse-appliable again. -/
theorem redo_exact {a : Action} {L : List Line} (hH : H a L)
    (hL : 1 ≤ L.length) :
    undoLines a (redoLines a L) = L ∧ G a (redoLines a L) := by
  obtain ⟨t, ⟨r, c⟩, cnt⟩ := a
  cases t <;> simp only [G, H, undoLines, redoLines, lineAt] at *
  · -- insert
    obtain ⟨h1, h2, h3⟩ := hH
    obtain ⟨ch, rfl⟩ : ∃ ch, cnt = [ch] := by
      cases cnt with
      | nil => simp at h3
      | cons x xs => cases xs with
        | nil => exact ⟨x, rfl⟩
        | cons y ys => simp at h3
    have hc : r < L.length ∧ c ≤ (L.getD r []).length := ⟨h1, h2⟩
    have e1 : (L.set r ((L.getD r []).insertIdx c ch)).getD r ([] : Line) =
        (L.getD r []).insertIdx c ch := ListFacts.getD_set_self [] L r _ h1
    have hlen : ((L.getD r []).insertIdx c ch).length = (L.getD r []).length + 1 :=
      List.length_insertIdx c _ h2
    simp only [if_pos hc, List.head?_cons, List.length_set, e1]
    have hc2 : r < L.length ∧ c < ((L.getD r []).insertIdx c ch).length :=
      ⟨h1, by omega⟩
    refine ⟨?_, hc2.1, hc2.2, ?_⟩
    · rw [if_pos hc2, List.set_set, List.eraseIdx_insertIdx c (L.getD r []),
        ListFacts.set_getD_self [] L r h1]
    · rw [ListFacts.getD_insertIdx_self ' ' (L.getD r []) c ch h2]
  · -- delete
    obtain ⟨h1, h2, h3⟩ := hH
    have hc : r < L.length ∧ c < (L.getD r []).length := ⟨h1, h2⟩
    have e1 : (L.set r ((L.getD r []).eraseIdx c)).getD r ([] : Line) =
        (L.getD r []).eraseIdx c := ListFacts.getD_set_self [] L r _ h1
    have hlen : ((L.getD r []).eraseIdx c).length = (L.getD r []).length - 1 :=
      List.length_eraseIdx_of_lt h2
    simp only [if_pos hc, List.length_set, e1]
    have hc2 : r < L.length ∧ c ≤ ((L.getD r []).eraseIdx c).length :=
      ⟨h1, by omega⟩
    refine ⟨?_, hc2.1, hc2.2, by rw [h3]; rfl⟩
    rw [if_pos hc2, h3]
    simp only [List.head?_cons]
    rw [List.set_set, ListFacts.insertIdx_eraseIdx_getD ' ' (L.getD r []) c h2,
      ListFacts.set_getD_self [] L r h1]
  · -- insertLine
    obtain ⟨h1, h2⟩ := hH
    have hlen : (L.insertIdx r cnt).length = L.length + 1 :=
      List.length_insertIdx r L h1
    simp only [if_pos h1, hlen]
    have hc2 : r < L.length + 1 := by omega
    refine ⟨?_, hc2, ?_, h2, by omega⟩
    · rw [if_pos hc2, List.eraseIdx_insertIdx r L]
    · rw [ListFacts.getD_insertIdx_self [] L r cnt h1, h2]
  · -- deleteLine
    obtain ⟨h1, h2, h3⟩ := hH
    have hlen : (L.eraseIdx r).length = L.length - 1 :=
      List.length_eraseIdx_of_lt h1
    simp only [if_pos h1, hlen]
    have hc2 : r ≤ L.length - 1 := by omega
    refine ⟨?_, by omega⟩
    rw [if_pos hc2, ← h2, ListFacts.insertIdx_eraseIdx_getD [] L r h1]

/-- Undo-coherence survives appending a trailing empty line (the discrepancy
introduced by the single-line branch of `delete_line`, whose `undo` reinserts
the cleared text as a fresh line). -/
theorem UC_append_empty :
    ∀ (s : List Action) (L : List Line), UC s L → UC s (L ++ [[]])
  | [], _, _ => trivial
  | a :: s, L, h => by
    obtain ⟨hG, hUC⟩ := h
    obtain ⟨t, ⟨r, c⟩, cnt⟩ := a
    cases t <;> simp only [G, UC, undoLines, lineAt] at *
    · -- insert
      obtain ⟨h1, h2, h3⟩ := hG
      have hline : (L ++ [[]]).getD r ([] : Line) = L.getD r [] :=
        ListFacts.getD_append_left [] L [[]] r h1
      have h1' : r < (L ++ [[]]).length := by simp; omega
      have hc : r < L.length ∧ c < (L.getD r []).length := ⟨h1, h2⟩
      have hc' : r < (L ++ [[]]).length ∧ c < ((L ++ [[]]).getD r []).length := by
        rw [hline]; exact ⟨h1', h2⟩
      refine ⟨⟨h1', by rw [hline]; exact h2, by rw [hline]; exact h3⟩, ?_⟩
      rw [if_pos hc] at hUC
      rw [if_pos hc', hline, List.set_append_left _ _ h1]
      exact UC_append_empty s _ hUC
    · -- delete
      obtain ⟨h1, h2, h3⟩ := hG
      have hline : (L ++ [[]]).getD r ([] : Line) = L.getD r [] :=
        ListFacts.getD_append_left [] L [[]] r h1
      have h1' : r < (L ++ [[]]).length := by simp; omega
      have hc : r < L.length ∧ c ≤ (L.getD r []).length := ⟨h1, h2⟩
      have hc' : r < (L ++ [[]]).length ∧ c ≤ ((L ++ [[]]).getD r []).length := by
        rw [hline]; exact ⟨h1', h2⟩
      refine ⟨⟨h1', by rw [hline]; exact h2, h3⟩, ?_⟩
      rw [if_pos hc] at hUC
      rw [if_pos hc', hline]
      cases hhead : cnt.head? with
      | none =>
        simp only [hhead] at hUC ⊢
        exact UC_append_empty s _ hUC
      | some ch =>
        simp only [hhead] at hUC ⊢
        rw [List.set_append_left _ _ h1]
        exact UC_append_empty s _ hUC
    · -- insertLine
      obtain ⟨h1, h2, h3, h4⟩ := hG
      have hline : (L ++ [[]]).getD r ([] : Line) = L.getD r [] :=
        ListFacts.getD_append_left [] L [[]] r h1
      have h1' : r < (L ++ [[]]).length := by simp; omega
      refine ⟨⟨h1', by rw [hline]; exact h2, h3, by simp; omega⟩, ?_⟩
      rw [if_pos h1] at hUC
      rw [if_pos h1', List.eraseIdx_append_of_lt_length h1]
      exact UC_append_empty s _ hUC
    · -- deleteLine
      have h1' : r ≤ (L ++ [[]]).length := by simp; omega
      refine ⟨h1', ?_⟩
      rw [if_pos hG] at hUC
      rw [if_pos h1', ListFacts.insertIdx_append_left cnt L [[]] r hG]
      exact UC_append_empty s _ hUC

theorem splitNL_length_pos : ∀ s : List Char, 1 ≤ (splitNL s).length
  | [] => by simp [splitNL]
  | c :: rest => by
    simp only [splitNL]
    split
    · simp
    · split <;> simp

theorem splitNL_cons (c : Char) (rest : List Char) :
    splitNL (c :: rest) =
      if c = '\n' then [] :: splitNL rest
      else
        match splitNL rest with
        | [] => [[c]]
        | l :: ls => (c :: l) :: ls := rfl

theorem splitNL_length_two_of_last_nl :
    ∀ s : List Char, s.getLast? = some '\n' → 2 ≤ (splitNL s).length
  | [], h => by simp at h
  | [c], h => by
    simp only [List.getLast?_singleton, Option.some.injEq] at h
    subst h
    simp [splitNL]
  | c :: c' :: rest, h => by
    rw [List.getLast?_cons_cons] at h
    have ih := splitNL_length_two_of_last_nl (c' :: rest) h
    rw [splitNL_cons]
    split
    · simp only [List.length_cons]
      omega
    · cases hsp : splitNL (c' :: rest) with
      | nil => rw [hsp] at ih; simp at ih
      | cons l ls =>
        rw [hsp] at ih
        simpa using ih

theorem rustLines_length_pos {s : List Char} (hs : ¬s.isEmpty) :
    1 ≤ (rustLines s).length := by
  unfold rustLines
  split
  · next hlast =>
    rw [List.length_dropLast]
    have := splitNL_length_two_of_last_nl s hlast
    omega
  · exact splitNL_length_pos s

/-! ### Invariant preservation and reachability -/
theorem Inv_new : Inv Buffer.new := ⟨by simp [Buffer.new], trivial, trivial⟩

theorem Inv_from_content (content : List Char) :
    Inv (Buffer.from_content content) := by
  unfold Buffer.from_content
  split
  · exact ⟨by simp, trivial, trivial⟩
  · next h => exact ⟨rustLines_length_pos h, trivial, trivial⟩

theorem Inv_insert_char {b : Buffer} (hb : Inv b) (pos : Position) (ch : Char) :
    Inv (b.insert_char pos ch).2 := by
  obtain ⟨hlen, hUC, hRC⟩ := hb
  obtain ⟨r, c⟩ := pos
  by_cases h1 : r ≥ b.lines.length
  · simp only [Buffer.insert_char, if_pos h1]
    exact ⟨hlen, hUC, hRC⟩
  · by_cases h2 : c > (lineAt b.lines r).length
    · simp only [Buffer.insert_char, if_neg h1, if_pos h2]
      exact ⟨hlen, hUC, hRC⟩
    · simp only [lineAt] at h2
      simp only [Buffer.insert_char, lineAt, if_neg h1, if_neg h2,
        Buffer.push_action]
      have hr : r < b.lines.length := by omega
      have hc : c ≤ (b.lines.getD r []).length := by omega
      have hlen2 : (List.insertIdx c ch (b.lines.getD r [])).length =
          (b.lines.getD r []).length + 1 := List.length_insertIdx c _ hc
      have e1 : (b.lines.set r (List.insertIdx c ch (b.lines.getD r []))).getD r
          ([] : Line) = List.insertIdx c ch (b.lines.getD r []) :=
        ListFacts.getD_set_self [] b.lines r _ hr
      refine ⟨by simpa using hlen, ⟨?_, ?_⟩, trivial⟩
      · simp only [G, lineAt, List.length_set, e1]
        refine ⟨hr, by omega, ?_⟩
        rw [ListFacts.getD_insertIdx_self ' ' (b.lines.getD r []) c ch hc]
      · simp only [undoLines, lineAt, List.length_set, e1]
        rw [if_pos ⟨hr, by omega⟩]
        rw [List.set_set, List.eraseIdx_insertIdx c (b.lines.getD r []),
          ListFacts.set_getD_self [] b.lines r hr]
        exact hUC

theorem Inv_delete_char {b : Buffer} (hb : Inv b) (pos : Position) :
    Inv (b.delete_char pos).2 := by
  obtain ⟨hlen, hUC, hRC⟩ := hb
  obtain ⟨r, c⟩ := pos
  by_cases h1 : r ≥ b.lines.length
  · simp only [Buffer.delete_char, if_pos h1]
    exact ⟨hlen, hUC, hRC⟩
  · by_cases h2 : c ≥ (lineAt b.lines r).length
    · simp only [Buffer.delete_char, if_neg h1, if_pos h2]
      exact ⟨hlen, hUC, hRC⟩
    · simp only [lineAt] at h2
      simp only [Buffer.delete_char, lineAt, if_neg h1, if_neg h2,
        Buffer.push_action]
      have hr : r < b.lines.length := by omega
      have hc : c < (b.lines.getD r []).length := by omega
      have hlen2 : ((b.lines.getD r []).eraseIdx c).length =
          (b.lines.getD r []).length - 1 := List.length_eraseIdx_of_lt hc
      have e1 : (b.lines.set r ((b.lines.getD r []).eraseIdx c)).getD r
          ([] : Line) = (b.lines.getD r []).eraseIdx c :=
        ListFacts.getD_set_self [] b.lines r _ hr
      refine ⟨by simpa using hlen, ⟨?_, ?_⟩, trivial⟩
      · simp only [G, lineAt, List.length_set, e1]
        exact ⟨hr, by omega, rfl⟩
      · simp only [undoLines, lineAt, List.length_set, e1]
        rw [if_pos ⟨hr, by omega⟩]
        simp only [List.head?_cons]
        rw [List.set_set,
          ListFacts.insertIdx_eraseIdx_getD ' ' (b.lines.getD r []) c hc,
          ListFacts.set_getD_self [] b.lines r hr]
        exact hUC

theorem Inv_insert_line {b : Buffer} (hb : Inv b) (row : Nat) :
    Inv (b.insert_line row).2 := by
  obtain ⟨hlen, hUC, hRC⟩ := hb
  by_cases h1 : row > b.lines.length
  · simp only [Buffer.insert_line, if_pos h1]
    exact ⟨hlen, hUC, hRC⟩
  · simp only [Buffer.insert_line, if_neg h1, Buffer.push_action]
    have hr : row ≤ b.lines.length := by omega
    refine ⟨?_, ⟨?_, ?_⟩, trivial⟩
    · simp only [List.length_insertIdx row b.lines hr]
      omega
    · simp only [G, lineAt, List.length_insertIdx row b.lines hr]
      exact ⟨by omega, ListFacts.getD_insertIdx_self [] b.lines row [] hr,
        trivial, by omega⟩
    · simp only [undoLines, lineAt, List.length_insertIdx row b.lines hr]
      rw [if_pos (show row < b.lines.length + 1 by omega),
        List.eraseIdx_insertIdx row b.lines]
      exact hUC

theorem Inv_delete_line {b : Buffer} (hb : Inv b) (row : Nat) :
    Inv (b.delete_line row).2 := by
  obtain ⟨hlen, hUC, hRC⟩ := hb
  by_cases h1 : row ≥ b.lines.length
  · simp only [Buffer.delete_line, if_pos h1]
    exact ⟨hlen, hUC, hRC⟩
  · have hr : row < b.lines.length := by omega
    by_cases h2 : b.lines.length = 1
    · simp only [Buffer.delete_line, if_neg h1, if_pos h2, Buffer.push_action]
      have hrow0 : row = 0 := by omega
      subst hrow0
      obtain ⟨x, hx⟩ : ∃ x, b.lines = [x] :=
        ⟨b.lines.getD 0 [], ListFacts.eq_singleton_getD [] b.lines h2⟩
      rw [hx] at hUC ⊢
      simp only [lineAt, List.getD_cons_zero, List.set_cons_zero]
      refine ⟨by simp, ⟨?_, ?_⟩, trivial⟩
      · simp [G]
      · simp only [undoLines, lineAt]
        rw [if_pos (by simp : (0 : Nat) ≤ ([] :: ([] : List Line)).length)]
        show UC b.undo_stack ([x] ++ [[]])
        exact UC_append_empty _ _ hUC
    · simp only [Buffer.delete_line, if_neg h1, if_neg h2, Buffer.push_action]
      refine ⟨?_, ⟨?_, ?_⟩, trivial⟩
      · simp only [List.length_eraseIdx_of_lt hr]
        omega
      · simp only [G, List.length_eraseIdx_of_lt hr]
        omega
      · simp only [undoLines, lineAt, List.length_eraseIdx_of_lt hr]
        rw [if_pos (show row ≤ b.lines.length - 1 by omega)]
        show UC b.undo_stack ((b.lines.eraseIdx row).insertIdx row
          (b.lines.getD row []))
        rw [ListFacts.insertIdx_eraseIdx_getD [] b.lines row hr]
        exact hUC

theorem Inv_undo {b : Buffer} (hb : Inv b) : Inv (b.undo).2 := by
  obtain ⟨hlen, hUC, hRC⟩ := hb
  cases hs : b.undo_stack with
  | nil => simp only [Buffer.undo, hs]; exact ⟨hlen, by rw [hs] at hUC ⊢; exact hUC, hRC⟩
  | cons a rest =>
    rw [hs] at hUC
    obtain ⟨hG, hchain⟩ := hUC
    obtain ⟨hinv, hH⟩ := undo_exact hG hlen
    simp only [Buffer.undo, hs]
    exact ⟨length_undoLines hG hlen, hchain, hH, by rw [hinv]; exact hRC⟩

theorem Inv_redo {b : Buffer} (hb : Inv b) : Inv (b.redo).2 := by
  obtain ⟨hlen, hUC, hRC⟩ := hb
  cases hs : b.redo_stack with
  | nil => simp only [Buffer.redo, hs]; exact ⟨hlen, hUC, by rw [hs] at hRC ⊢; exact hRC⟩
  | cons a rest =>
    rw [hs] at hRC
    obtain ⟨hH, hchain⟩ := hRC
    obtain ⟨hinv, hG⟩ := redo_exact hH hlen
    simp only [Buffer.redo, hs]
    exact ⟨length_redoLines hH hlen, ⟨hG, by rw [hinv]; exact hUC⟩, hchain⟩

theorem Inv_mark_saved {b : Buffer} (hb : Inv b) : Inv b.mark_saved := hb

/-- Every reachable buffer state satisfies the coherence invariant. -/
theorem Inv_of_reachable {b : Buffer} (h : Reachable b) : Inv b := by
  induction h with
  | new_ => exact Inv_new
  | from_content content => exact Inv_from_content content
  | insert_char pos ch _ ih => exact Inv_insert_char ih pos ch
  | delete_char pos _ ih => exact Inv_delete_char ih pos
  | insert_line row _ ih => exact Inv_insert_line ih row
  | delete_line row _ ih => exact Inv_delete_line ih row
  | undo _ ih => exact Inv_undo ih
  | redo _ ih => exact Inv_redo ih
  | mark_saved _ ih => exact Inv_mark_saved ih

/-! ### Characterisations of single operations -/
theorem insert_char_eq_ok {b : Buffer} {p : Position} {ch : Char}
    (h1 : p.row < b.lines.length)
    (h2 : p.col ≤ (lineAt b.lines p.row).length) :
    b.insert_char p ch =
      (.ok (), ⟨b.lines.set p.row ((lineAt b.lines p.row).insertIdx p.col ch),
        true, ⟨.insert, p, [ch]⟩ :: b.undo_stack, []⟩) := by
  simp only [Buffer.insert_char, Buffer.push_action]
  rw [if_neg (by omega), if_neg (by omega)]

theorem undo_eq_of_stack {b : Buffer} {a : Action} {rest : List Action}
    (hs : b.undo_stack = a :: rest) :
    b.undo = (.ok (), ⟨undoLines a b.lines, !rest.isEmpty, rest,
      a :: b.redo_stack⟩) := by
  simp only [Buffer.undo, hs]

theorem redo_eq_of_stack {b : Buffer} {a : Action} {rest : List Action}
    (hs : b.redo_stack = a :: rest) :
    b.redo = (.ok (), ⟨redoLines a b.lines, true, a :: b.undo_stack,
      rest⟩) := by
  simp only [Buffer.redo, hs]

theorem insert_char_eq_err {b : Buffer} {p : Position} (ch : Char)
    (h : ¬(p.row < b.lines.length ∧ p.col ≤ (lineAt b.lines p.row).length)) :
    b.insert_char p ch = (.error (.outOfBounds p.row p.col), b) := by
  simp only [Buffer.insert_char]
  by_cases hr : p.row ≥ b.lines.length
  · rw [if_pos hr]
  · rw [if_neg hr, if_pos (by push_neg at h; exact h (by omega))]

theorem delete_char_eq_err {b : Buffer} {p : Position}
    (h : p.row ≥ b.lines.length) :
    b.delete_char p = (.error (.outOfBounds p.row p.col), b) := by
  simp only [Buffer.delete_char]
  rw [if_pos h]

theorem delete_char_eq_none {b : Buffer} {p : Position}
    (h1 : p.row < b.lines.length)
    (h2 : p.col ≥ (lineAt b.lines p.row).length) :
    b.delete_char p = (.ok none, b) := by
  simp only [Buffer.delete_char]
  rw [if_neg (by omega), if_pos h2]

theorem delete_char_eq_ok {b : Buffer} {p : Position}
    (h1 : p.row < b.lines.length)
    (h2 : p.col < (lineAt b.lines p.row).length) :
    b.delete_char p =
      (.ok (some ((lineAt b.lines p.row).getD p.col ' ')),
       ⟨b.lines.set p.row ((lineAt b.lines p.row).eraseIdx p.col), true,
        ⟨.delete, p, [(lineAt b.lines p.row).getD p.col ' ']⟩ :: b.undo_stack,
        []⟩) := by
  simp only [Buffer.delete_char, Buffer.push_action]
  rw [if_neg (by omega), if_neg (by omega)]

theorem insert_line_eq_err {b : Buffer} {row : Nat}
    (h : row > b.lines.length) :
    b.insert_line row = (.error (.outOfBounds row 0), b) := by
  simp only [Buffer.insert_line]
  rw [if_pos h]

theorem insert_line_eq_ok {b : Buffer} {row : Nat}
    (h : row ≤ b.lines.length) :
    b.insert_line row =
      (.ok (), ⟨b.lines.insertIdx row [], true,
        ⟨.insertLine, ⟨row, 0⟩, []⟩ :: b.undo_stack, []⟩) := by
  simp only [Buffer.insert_line, Buffer.push_action]
  rw [if_neg (by omega)]

theorem delete_line_eq_err {b : Buffer} {row : Nat}
    (h : row ≥ b.lines.length) :
    b.delete_line row = (.error (.outOfBounds row 0), b) := by
  simp only [Buffer.delete_line]
  rw [if_pos h]

theorem delete_line_eq_single {b : Buffer} {row : Nat}
    (h1 : row < b.lines.length) (h2 : b.lines.length = 1) :
    b.delete_line row =
      (.ok (some (lineAt b.lines 0)),
       ⟨b.lines.set 0 [], true,
        ⟨.deleteLine, ⟨row, 0⟩, lineAt b.lines 0⟩ :: b.undo_stack, []⟩) := by
  simp only [Buffer.delete_line, Buffer.push_action]
  rw [if_neg (by omega), if_pos h2]

theorem delete_line_eq_multi {b : Buffer} {row : Nat}
    (h1 : row < b.lines.length) (h2 : b.lines.length ≠ 1) :
    b.delete_line row =
      (.ok (some (lineAt b.lines row)),
       ⟨b.lines.eraseIdx row, true,
        ⟨.deleteLine, ⟨row, 0⟩, lineAt b.lines row⟩ :: b.undo_stack, []⟩) := by
  simp only [Buffer.delete_line, Buffer.push_action]
  rw [if_neg (by omega), if_neg h2]

/-- Reverse-applying a freshly pushed `Insert` action exactly undoes the
insertion. -/
theorem undoLines_insert_fresh (L : List Line) (r c : Nat) (ch : Char)
    (hr : r < L.length) (hc : c ≤ (L.getD r []).length) :
    undoLines ⟨.insert, ⟨r, c⟩, [ch]⟩
      (L.set r ((L.getD r []).insertIdx c ch)) = L := by
  have hlen2 : (List.insertIdx c ch (L.getD r [])).length =
      (L.getD r []).length + 1 := List.length_insertIdx c _ hc
  have e1 : (L.set r (List.insertIdx c ch (L.getD r []))).getD r ([] : Line) =
      List.insertIdx c ch (L.getD r []) := ListFacts.getD_set_self [] L r _ hr
  simp only [undoLines, lineAt, List.length_set, e1]
  rw [if_pos ⟨hr, by omega⟩]
  rw [List.set_set, List.eraseIdx_insertIdx c (L.getD r []),
    ListFacts.set_getD_self [] L r hr]

theorem applyInserts_undoN :
    ∀ (l : List (Position × Char)) (b b' : Buffer),
      applyInserts b l = some b' →
      (undoN l.length b').lines = b.lines ∧
      (undoN l.length b').undo_stack = b.undo_stack ∧
      (l = [] → undoN l.length b' = b) ∧
      (l ≠ [] → (undoN l.length b').modified = !b.undo_stack.isEmpty)
  | [], b, b', h => by
    simp only [applyInserts, Option.some.injEq] at h
    subst h
    exact ⟨rfl, rfl, fun _ => rfl, fun hne => absurd rfl hne⟩
  | (p, ch) :: rest, b, b', h => by
    simp only [applyInserts] at h
    by_cases hok : p.row < b.lines.length ∧ p.col ≤ (lineAt b.lines p.row).length
    · rw [insert_char_eq_ok hok.1 hok.2] at h
      set b₁ : Buffer := ⟨b.lines.set p.row ((lineAt b.lines p.row).insertIdx
        p.col ch), true, ⟨.insert, p, [ch]⟩ :: b.undo_stack, []⟩ with hb₁
      obtain ⟨ih1, ih2, _, _⟩ := applyInserts_undoN rest b₁ b' h
      have hstep : (undoN rest.length b').undo =
          (.ok (), ⟨undoLines ⟨.insert, p, [ch]⟩ (undoN rest.length b').lines,
            !b.undo_stack.isEmpty, b.undo_stack,
            ⟨.insert, p, [ch]⟩ :: (undoN rest.length b').redo_stack⟩) :=
        undo_eq_of_stack (by rw [ih2])
      have hlines : undoLines ⟨.insert, p, [ch]⟩ (undoN rest.length b').lines
          = b.lines := by
        rw [ih1]
        show undoLines ⟨.insert, ⟨p.row, p.col⟩, [ch]⟩
          (b.lines.set p.row ((b.lines.getD p.row []).insertIdx p.col ch)) = b.lines
        exact undoLines_insert_fresh b.lines p.row p.col ch hok.1 hok.2
      show ((undoN rest.length b').undo).2.lines = b.lines ∧
        ((undoN rest.length b').undo).2.undo_stack = b.undo_stack ∧
        ((p, ch) :: rest = [] → ((undoN rest.length b').undo).2 = b) ∧
        ((p, ch) :: rest ≠ [] →
          ((undoN rest.length b').undo).2.modified = !b.undo_stack.isEmpty)
      rw [hstep]
      exact ⟨hlines, rfl, fun hc => by simp at hc, fun _ => rfl⟩
    · have : b.insert_char p ch =
          (.error (.outOfBounds p.row p.col), b) := by
        simp only [Buffer.insert_char]
        by_cases hr : p.row ≥ b.lines.length
        · rw [if_pos hr]
        · rw [if_neg hr, if_pos (by push_neg at hok; exact hok (by omega))]
      rw [this] at h
      exact absurd h (by simp)

end Ed

namespace Domain

/-! ## Characterisations of the `Domain.TextBuffer` operations -/
theorem tb_insert_char_eq_ok {b : TextBuffer} {row col : Nat} {ch : Char}
    (h1 : row < b.lines.length) (h2 : col ≤ (b.lines.getD row []).length) :
    b.insert_char row col ch =
      (.ok (), ⟨b.lines.set row ((b.lines.getD row []).insertIdx col ch),
        true, ⟨.insert, (row, col), [ch]⟩ :: b.undo_stack, []⟩) := by
  simp only [TextBuffer.insert_char]
  rw [if_neg (by omega), if_neg (by omega)]

theorem tb_insert_char_eq_err_row {b : TextBuffer} {row col : Nat} {ch : Char}
    (h : row ≥ b.lines.length) :
    b.insert_char row col ch = (.error (.rowOutOfBounds row), b) := by
  simp only [TextBuffer.insert_char]
  rw [if_pos h]

theorem tb_insert_char_eq_err_col {b : TextBuffer} {row col : Nat} {ch : Char}
    (h1 : row < b.lines.length) (h2 : col > (b.lines.getD row []).length) :
    b.insert_char row col ch = (.error (.colOutOfBounds col row), b) := by
  simp only [TextBuffer.insert_char]
  rw [if_neg (by omega), if_pos h2]

theorem tb_delete_char_eq_ok {b : TextBuffer} {row col : Nat}
    (h1 : row < b.lines.length) (h2 : col < (b.lines.getD row []).length) :
    b.delete_char row col =
      (.ok (some ((b.lines.getD row []).getD col ' ')),
       ⟨b.lines.set row ((b.lines.getD row []).eraseIdx col), true,
        ⟨.delete, (row, col), [(b.lines.getD row []).getD col ' ']⟩ ::
          b.undo_stack, []⟩) := by
  simp only [TextBuffer.delete_char]
  rw [if_neg (by omega), if_neg (by omega)]

theorem tb_delete_char_eq_err_row {b : TextBuffer} {row col : Nat}
    (h : row ≥ b.lines.length) :
    b.delete_char row col = (.error (.rowOutOfBounds row), b) := by
  simp only [TextBuffer.delete_char]
  rw [if_pos h]

theorem tb_delete_char_eq_none {b : TextBuffer} {row col : Nat}
    (h1 : row < b.lines.length) (h2 : col ≥ (b.lines.getD row []).length) :
    b.delete_char row col = (.ok none, b) := by
  simp only [TextBuffer.delete_char]
  rw [if_neg (by omega), if_pos h2]

theorem tb_insert_line_eq_err {b : TextBuffer} {row : Nat}
    (h : row > b.lines.length) :
    b.insert_line row = (.error (.rowOutOfBounds row), b) := by
  simp only [TextBuffer.insert_line]
  rw [if_pos h]

theorem tb_delete_line_eq_err {b : TextBuffer} {row : Nat}
    (h : row ≥ b.lines.length) :
    b.delete_line row = (.error (.rowOutOfBounds row), b) := by
  simp only [TextBuffer.delete_line]
  rw [if_pos h]

theorem tb_delete_line_eq_multi {b : TextBuffer} {row : Nat}
    (h1 : row < b.lines.length) (h2 : b.lines.length ≠ 1) :
    b.delete_line row =
      (.ok (some (b.lines.getD row [])),
       ⟨b.lines.eraseIdx row, true,
        ⟨.delete, (row, 0), b.lines.getD row []⟩ :: b.undo_stack, []⟩) := by
  simp only [TextBuffer.delete_line]
  rw [if_neg (by omega), if_neg h2]

theorem tb_undo_eq_of_stack {b : TextBuffer} {a : Action} {rest : List Action}
    (hs : b.undo_stack = a :: rest) :
    b.undo = (.ok (), ⟨undoLinesTB a b.lines, !rest.isEmpty, rest,
      a :: b.redo_stack⟩) := by
  simp only [TextBuffer.undo, hs]

theorem tb_redo_eq_of_stack {b : TextBuffer} {a : Action} {rest : List Action}
    (hs : b.redo_stack = a :: rest) :
    b.redo = (.ok (), ⟨redoLinesTB a b.lines, true, a :: b.undo_stack,
      rest⟩) := by
  simp only [TextBuffer.redo, hs]

end Domain

namespace App

/-- Appending characters one at a time at the end of a line: the loop of the
Backspace join branch succeeds and appends the whole list. -/
theorem insertLoopChars_spec :
    ∀ (cs : List Char) (b : Domain.TextBuffer) (row col : Nat),
      row < b.lines.length → col = (b.lines.getD row []).length →
      (insertLoopChars cs row col b).1 = .ok () ∧
      (insertLoopChars cs row col b).2.1 = col + cs.length ∧
      (insertLoopChars cs row col b).2.2.lines =
        b.lines.set row ((b.lines.getD row []) ++ cs)
  | [], b, row, col, h1, h2 => by
    refine ⟨rfl, by simp [insertLoopChars], ?_⟩
    show b.lines = b.lines.set row ((b.lines.getD row []) ++ [])
    rw [List.append_nil, ListFacts.set_getD_self [] b.lines row h1]
  | c :: rest, b, row, col, h1, h2 => by
    simp only [insertLoopChars]
    rw [Domain.tb_insert_char_eq_ok h1 (le_of_eq h2)]
    have hgetD : ((b.lines.set row ((b.lines.getD row []).insertIdx col c)).getD
        row ([] : List Char)) = (b.lines.getD row []).insertIdx col c :=
      ListFacts.getD_set_self [] b.lines row _ h1
    have hidx : (b.lines.getD row []).insertIdx col c =
        (b.lines.getD row []) ++ [c] := by
      rw [h2, List.insertIdx_length_self]
    obtain ⟨ih1, ih2, ih3⟩ := insertLoopChars_spec rest
      ⟨b.lines.set row ((b.lines.getD row []).insertIdx col c), true,
        ⟨.insert, (row, col), [c]⟩ :: b.undo_stack, []⟩ row (col + 1)
      (by simpa using h1)
      (by rw [hgetD, hidx]; simp [h2])
    refine ⟨ih1, ?_, ?_⟩
    · rw [ih2]
      simp
      omega
    · rw [ih3]
      rw [List.set_set, hgetD, hidx, List.append_assoc]
      rfl

end App

/-! ## Claim theorems about the editor `Buffer` -/
/-- C1 (amended): for the editor `Buffer` (`src/editor/buffer.rs`), on every
buffer with at least two lines and every `row < line_count`,
`delete_line(row)` followed by `undo()` restores the buffer's line sequence
exactly (the stored line text is reinserted as a whole line at that row),
and `delete_line` returns the removed text; the single-line clear case does
not restore in place (see the counterexample).  For the domain `TextBuffer`
(`src/domain/text_buffer.rs`) the claim fails outright: `delete_line`
records the removed line as a plain `Delete` action, and `undo` reinserts
only the FIRST character of the stored content into the line that moved up
(second conjunct, for a deleted non-empty newline-free line that is not the
last line). -/
theorem C1_delete_line_undo_restores :
    (∀ (b : Ed.Buffer) (row : Nat),
      2 ≤ b.lines.length → row < b.lines.length →
      (((b.delete_line row).2).undo).2.lines = b.lines ∧
      (((b.delete_line row).2).undo).2.undo_stack = b.undo_stack ∧
      (b.delete_line row).1 = .ok (some (Ed.lineAt b.lines row))) ∧
    (∀ (b : Domain.TextBuffer) (row : Nat) (ch : Char) (tl : List Char),
      row + 1 < b.lines.length →
      b.lines.getD row [] = ch :: tl →
      (ch :: tl).contains '\n' = false →
      (((b.delete_line row).2).undo).1 = .ok () ∧
      (((b.delete_line row).2).undo).2.lines =
        (b.lines.eraseIdx row).set row (ch :: b.lines.getD (row + 1) [])) := by
  constructor
  · intro b row h2 hr
    rw [Ed.delete_line_eq_multi hr (by omega)]
    rw [Ed.undo_eq_of_stack rfl]
    refine ⟨?_, rfl, rfl⟩
    show Ed.undoLines ⟨.deleteLine, ⟨row, 0⟩, Ed.lineAt b.lines row⟩
      (b.lines.eraseIdx row) = b.lines
    have hlen : (b.lines.eraseIdx row).length = b.lines.length - 1 :=
      List.length_eraseIdx_of_lt hr
    simp only [Ed.undoLines, Ed.lineAt]
    rw [if_pos (show row ≤ (b.lines.eraseIdx row).length by omega)]
    exact ListFacts.insertIdx_eraseIdx_getD [] b.lines row hr
  · intro b row ch tl hrow hget hnl
    rw [Domain.tb_delete_line_eq_multi (by omega) (by omega)]
    rw [Domain.tb_undo_eq_of_stack rfl]
    refine ⟨rfl, ?_⟩
    show Domain.undoLinesTB ⟨.delete, (row, 0), b.lines.getD row []⟩
      (b.lines.eraseIdx row) =
      (b.lines.eraseIdx row).set row (ch :: b.lines.getD (row + 1) [])
    have hlen : (b.lines.eraseIdx row).length = b.lines.length - 1 :=
      List.length_eraseIdx_of_lt (by omega)
    simp only [Domain.undoLinesTB, hget, hnl]
    rw [if_neg (by simp), if_pos ⟨by omega, by omega⟩]
    simp only [List.head?_cons]
    rw [ListFacts.getD_eraseIdx_ge [] b.lines row]
    rfl

/-- C1 counterexample: on the editor `Buffer`, a single-line buffer `["a"]`
with `delete_line(0)` clears in place, but `undo()` reinserts the stored
text as a fresh line, producing `["a", ""]`; on the domain `TextBuffer`,
`from_content("A\nB\nC")` then `delete_line(1)` then `undo()` yields
`["A", "BC"]` — in neither case the original line sequence. -/
theorem C1_counterexample :
    ((((Ed.Buffer.from_content ['a']).delete_line 0).2).undo).2.lines
        = [['a'], []] ∧
    ((((Ed.Buffer.from_content ['a']).delete_line 0).2).undo).2.lines
        ≠ (Ed.Buffer.from_content ['a']).lines ∧
    0 < (Ed.Buffer.from_content ['a']).line_count ∧
    (Domain.TextBuffer.from_content ['A', '\n', 'B', '\n', 'C']).lines
        = [['A'], ['B'], ['C']] ∧
    ((((Domain.TextBuffer.from_content
        ['A', '\n', 'B', '\n', 'C']).delete_line 1).2).undo).2.lines
        = [['A'], ['B', 'C']] := by decide

/-- C1 witness: the editor round trip at the two-line buffer `["a","b"]`
deleting row 1, and the `TextBuffer` first-character reinsertion at the
three-line buffer `["ab","cd","ef"]` deleting row 0. -/
theorem C1_witness :
    (2 ≤ (⟨[['a'], ['b']], false, [], []⟩ : Ed.Buffer).lines.length ∧
      1 < (⟨[['a'], ['b']], false, [], []⟩ : Ed.Buffer).lines.length ∧
      ((((⟨[['a'], ['b']], false, [], []⟩ : Ed.Buffer).delete_line 1).2).undo).2.lines
        = [['a'], ['b']]) ∧
    ((((⟨[['a', 'b'], ['c', 'd'], ['e', 'f']], false, [], []⟩
          : Domain.TextBuffer).delete_line 0).2).undo).2.lines
      = [['a', 'c', 'd'], ['e', 'f']] :=
  ⟨⟨by decide, by decide,
    (C1_delete_line_undo_restores.1 ⟨[['a'], ['b']], false, [], []⟩ 1
      (by decide) (by decide)).1⟩,
   (C1_delete_line_undo_restores.2
      ⟨[['a', 'b'], ['c', 'd'], ['e', 'f']], false, [], []⟩ 0 'a' ['b']
      (by decide) (by decide) (by decide)).2⟩

/-- C2 (amended): the `modified` flag does not track "unreverted actions since
the last save": instead, every successful mutating action sets it, `redo`
sets it unconditionally, `mark_saved` clears it, and `undo` recomputes it as
"undo stack non-empty".  Hence after an `undo` it is `false` exactly when the
whole undo stack has been emptied, regardless of where the last save
happened. -/
theorem C2_modified_tracking (b : Ed.Buffer) :
    (∀ (a : Ed.Action) (rest : List Ed.Action), b.undo_stack = a :: rest →
      ((b.undo).2).modified = !rest.isEmpty) ∧
    (∀ (a : Ed.Action) (rest : List Ed.Action), b.redo_stack = a :: rest →
      ((b.redo).2).modified = true) ∧
    (∀ (p : Ed.Position) (ch : Char), p.row < b.lines.length →
      p.col ≤ (Ed.lineAt b.lines p.row).length →
      ((b.insert_char p ch).2).modified = true) ∧
    (b.mark_saved).modified = false := by
  refine ⟨?_, ?_, ?_, rfl⟩
  · intro a rest hs
    rw [Ed.undo_eq_of_stack hs]
  · intro a rest hs
    rw [Ed.redo_eq_of_stack hs]
  · intro p ch h1 h2
    rw [Ed.insert_char_eq_ok h1 h2]

/-- C2 counterexample: insert `'a'`, `mark_saved`, insert `'b'`, then `undo`.
All edits made since the save are now undone (the text equals the saved
text), yet `modified` is `true` because the pre-save action is still on the
undo stack — refuting "modified iff at least one unreverted mutating action
since the last save". -/
theorem C2_counterexample :
    (((((Ed.Buffer.new.insert_char ⟨0, 0⟩ 'a').2.mark_saved).insert_char
        ⟨0, 1⟩ 'b').2.undo).2.lines
      = ((Ed.Buffer.new.insert_char ⟨0, 0⟩ 'a').2.mark_saved).lines) ∧
    (((((Ed.Buffer.new.insert_char ⟨0, 0⟩ 'a').2.mark_saved).insert_char
        ⟨0, 1⟩ 'b').2.undo).2.modified = true) := by decide

/-- C2 witness: undoing the only action on the stack clears `modified`;
`redo` then sets it again. -/
theorem C2_witness :
    (((Ed.Buffer.new.insert_char ⟨0, 0⟩ 'x').2).undo).2.modified = false ∧
    ((((Ed.Buffer.new.insert_char ⟨0, 0⟩ 'x').2).undo).2.redo).2.modified
      = true := by
  refine ⟨?_, ?_⟩
  · have h := (C2_modified_tracking ((Ed.Buffer.new.insert_char ⟨0, 0⟩ 'x').2)).1
      ⟨.insert, ⟨0, 0⟩, ['x']⟩ [] (by decide)
    simpa using h
  · have h := (C2_modified_tracking
        ((((Ed.Buffer.new.insert_char ⟨0, 0⟩ 'x').2).undo).2)).2.1
      ⟨.insert, ⟨0, 0⟩, ['x']⟩ [] (by decide)
    simpa using h

/-- C4 (confirmed): every reachable buffer state has `line_count ≥ 1`
(all operations — `insert_char`, `delete_char`, `insert_line`,
`delete_line`, `undo`, `redo`, `mark_saved` — preserve it), and
`delete_line` on a single-line buffer clears the line's content in place,
keeping the line count at 1. -/
theorem C4_line_count_invariant (b : Ed.Buffer) (hb : Ed.Reachable b) :
    1 ≤ b.line_count ∧
    (b.line_count = 1 →
      (b.delete_line 0).2.lines = [[]] ∧ (b.delete_line 0).2.line_count = 1) := by
  refine ⟨(Ed.Inv_of_reachable hb).1, ?_⟩
  intro h1
  have h1' : b.lines.length = 1 := h1
  obtain ⟨x, hx⟩ : ∃ x, b.lines = [x] :=
    ⟨b.lines.getD 0 [], ListFacts.eq_singleton_getD [] b.lines h1'⟩
  rw [Ed.delete_line_eq_single (by omega) h1']
  constructor
  · show b.lines.set 0 [] = [[]]
    rw [hx]
    rfl
  · show (b.lines.set 0 []).length = 1
    simpa using h1'

/-- C4 witness: the invariant applied to the freshly created buffer. -/
theorem C4_witness :
    1 ≤ Ed.Buffer.new.line_count ∧
    (Ed.Buffer.new.line_count = 1 →
      (Ed.Buffer.new.delete_line 0).2.lines = [[]] ∧
      (Ed.Buffer.new.delete_line 0).2.line_count = 1) :=
  C4_line_count_invariant Ed.Buffer.new Ed.Reachable.new_

/-- C5 (amended): for the editor `Buffer`, on every buffer with no recorded
history (empty undo stack and a clear `modified` flag — e.g. freshly created
or freshly loaded), any sequence of n successful `insert_char` calls
followed by n `undo` calls restores the buffer's text exactly and leaves
`modified = false`; with prior history the text still round-trips but
`modified` remains `true` (counterexample).  For the domain `TextBuffer`,
the round trip holds for a successful `insert_char` of any character other
than `'\n'` (second conjunct), but fails for `'\n'` itself: the newline is
inserted as an ordinary character, yet `undo` misreads its `Insert` record
as the `insert_line` marker and removes the whole row (counterexample). -/
theorem C5_insert_undo_roundtrip :
    (∀ (b : Ed.Buffer) (l : List (Ed.Position × Char)) (b' : Ed.Buffer),
      b.undo_stack = [] → b.modified = false →
      Ed.applyInserts b l = some b' →
      (Ed.undoN l.length b').lines = b.lines ∧
      (Ed.undoN l.length b').modified = false) ∧
    (∀ (b : Domain.TextBuffer) (row col : Nat) (ch : Char),
      b.undo_stack = [] → ch ≠ '\n' →
      (b.insert_char row col ch).1 = .ok () →
      (((b.insert_char row col ch).2).undo).1 = .ok () ∧
      (((b.insert_char row col ch).2).undo).2.lines = b.lines ∧
      (((b.insert_char row col ch).2).undo).2.modified = false) := by
  constructor
  · intro b l b' hstack hmod happ
    obtain ⟨h1, h2, h3, h4⟩ := Ed.applyInserts_undoN l b b' happ
    refine ⟨h1, ?_⟩
    cases l with
    | nil => rw [h3 rfl]; exact hmod
    | cons x xs =>
      rw [h4 (by simp), hstack]
      rfl
  · intro b row col ch hstack hch hok
    have h1 : row < b.lines.length := by
      by_contra h
      rw [Domain.tb_insert_char_eq_err_row (by omega)] at hok
      exact absurd hok (by simp)
    have h2 : col ≤ (b.lines.getD row []).length := by
      by_contra h
      rw [Domain.tb_insert_char_eq_err_col h1 (by omega)] at hok
      exact absurd hok (by simp)
    rw [Domain.tb_insert_char_eq_ok h1 h2, hstack]
    rw [Domain.tb_undo_eq_of_stack rfl]
    refine ⟨rfl, ?_, rfl⟩
    show Domain.undoLinesTB ⟨.insert, (row, col), [ch]⟩
      (b.lines.set row ((b.lines.getD row []).insertIdx col ch)) = b.lines
    have hgetD : (b.lines.set row
        ((b.lines.getD row []).insertIdx col ch)).getD row [] =
        (b.lines.getD row []).insertIdx col ch :=
      ListFacts.getD_set_self [] b.lines row _ h1
    have hlen2 : ((b.lines.getD row []).insertIdx col ch).length =
        (b.lines.getD row []).length + 1 :=
      List.length_insertIdx col _ h2
    simp only [Domain.undoLinesTB]
    rw [if_neg (by simpa using hch)]
    rw [if_pos ⟨by simpa using h1, by rw [hgetD, hlen2]; omega⟩]
    rw [hgetD]
    rw [List.eraseIdx_insertIdx]
    rw [List.set_set]
    exact ListFacts.set_getD_self [] b.lines row h1

/-- C5 witness: two inserts then two undos on a fresh editor buffer, and one
non-newline insert/undo round trip on a fresh `TextBuffer`. -/
theorem C5_witness :
    ((Ed.undoN 2 ((((Ed.Buffer.new.insert_char ⟨0, 0⟩ 'h').2).insert_char
        ⟨0, 1⟩ 'i').2)).lines = Ed.Buffer.new.lines ∧
      (Ed.undoN 2 ((((Ed.Buffer.new.insert_char ⟨0, 0⟩ 'h').2).insert_char
        ⟨0, 1⟩ 'i').2)).modified = false) ∧
    ((((Domain.TextBuffer.from_content ['a', 'b']).insert_char 0 1 'c').2.undo).1
        = .ok () ∧
      ((((Domain.TextBuffer.from_content ['a', 'b']).insert_char 0 1
          'c').2).undo).2.lines = [['a', 'b']] ∧
      ((((Domain.TextBuffer.from_content ['a', 'b']).insert_char 0 1
          'c').2).undo).2.modified = false) :=
  ⟨C5_insert_undo_roundtrip.1 Ed.Buffer.new [(⟨0, 0⟩, 'h'), (⟨0, 1⟩, 'i')]
      ((((Ed.Buffer.new.insert_char ⟨0, 0⟩ 'h').2).insert_char ⟨0, 1⟩ 'i').2)
      rfl rfl (by decide),
   C5_insert_undo_roundtrip.2 (Domain.TextBuffer.from_content ['a', 'b'])
      0 1 'c' rfl (by decide) rfl⟩

/-- C5 counterexample: on an editor buffer that already has one action on
its undo stack, one further successful `insert_char` followed by one `undo`
restores the text but leaves `modified = true`; and on a fresh `TextBuffer`
loaded from `"ab"` (empty history, `modified = false`), one successful
`insert_char` of `'\n'` followed by one `undo` leaves the text `""` in zero
lines instead of `"ab"` — refuting the claim on both counts. -/
theorem C5_counterexample :
    (Ed.applyInserts ((Ed.Buffer.new.insert_char ⟨0, 0⟩ 'a').2) [(⟨0, 1⟩, 'b')]
      = some ((((Ed.Buffer.new.insert_char ⟨0, 0⟩ 'a').2).insert_char
          ⟨0, 1⟩ 'b').2) ∧
    (Ed.undoN 1 ((((Ed.Buffer.new.insert_char ⟨0, 0⟩ 'a').2).insert_char
      ⟨0, 1⟩ 'b').2)).lines = ((Ed.Buffer.new.insert_char ⟨0, 0⟩ 'a').2).lines ∧
    (Ed.undoN 1 ((((Ed.Buffer.new.insert_char ⟨0, 0⟩ 'a').2).insert_char
      ⟨0, 1⟩ 'b').2)).modified = true) ∧
    ((Domain.TextBuffer.from_content ['a', 'b']).undo_stack = [] ∧
    (Domain.TextBuffer.from_content ['a', 'b']).modified = false ∧
    ((Domain.TextBuffer.from_content ['a', 'b']).insert_char 0 1 '\n').2.lines
      = [['a', '\n', 'b']] ∧
    ((((Domain.TextBuffer.from_content ['a', 'b']).insert_char 0 1
        '\n').2).undo).2.lines = []) := by
  decide

/-- C6 (amended): on the editor `Buffer`, for every reachable state whose
undo stack is non-empty, `undo()` followed by `redo()` restores the exact
pre-undo state (lines, undo stack and redo stack) with `modified = true`;
and `can_redo()` is false immediately after any successful mutating edit in
both buffer implementations, because every mutating edit clears the redo
stack (last conjunct for the domain `TextBuffer`).  The exact-restore half
is NOT true of the domain `TextBuffer`: undoing the empty-content `Delete`
recorded by deleting an empty line is a no-op on the text, yet its redo
still deletes a character — see the counterexample. -/
theorem C6_undo_redo_roundtrip :
    (∀ (b : Ed.Buffer) (a : Ed.Action) (s : List Ed.Action), Ed.Reachable b →
      b.undo_stack = a :: s →
      (((b.undo).2).redo).2.lines = b.lines ∧
      (((b.undo).2).redo).2.undo_stack = b.undo_stack ∧
      (((b.undo).2).redo).2.redo_stack = b.redo_stack ∧
      (((b.undo).2).redo).2.modified = true) ∧
    (∀ (b : Ed.Buffer) (p : Ed.Position) (ch : Char),
      (b.insert_char p ch).1 = .ok () →
      ((b.insert_char p ch).2).can_redo = false) ∧
    (∀ (b : Ed.Buffer) (p : Ed.Position) (c0 : Char),
      (b.delete_char p).1 = .ok (some c0) →
      ((b.delete_char p).2).can_redo = false) ∧
    (∀ (b : Ed.Buffer) (row : Nat),
      (b.insert_line row).1 = .ok () →
      ((b.insert_line row).2).can_redo = false) ∧
    (∀ (b : Ed.Buffer) (row : Nat) (s0 : Ed.Line),
      (b.delete_line row).1 = .ok (some s0) →
      ((b.delete_line row).2).can_redo = false) ∧
    (∀ (b : Domain.TextBuffer) (row col : Nat) (ch : Char),
      (b.insert_char row col ch).1 = .ok () →
      ((b.insert_char row col ch).2).can_redo = false) := by
  refine ⟨?_, ?_, ?_, ?_, ?_, ?_⟩
  · intro b a s hb hs
    obtain ⟨hlen, hUC, hRC⟩ := Ed.Inv_of_reachable hb
    rw [hs] at hUC
    obtain ⟨hG, _⟩ := hUC
    rw [Ed.undo_eq_of_stack hs]
    rw [Ed.redo_eq_of_stack rfl]
    refine ⟨?_, by rw [hs], rfl, rfl⟩
    exact (Ed.undo_exact hG hlen).1
  · intro b p ch h
    by_cases h1 : p.row < b.lines.length ∧
        p.col ≤ (Ed.lineAt b.lines p.row).length
    · rw [Ed.insert_char_eq_ok h1.1 h1.2]
      rfl
    · rw [Ed.insert_char_eq_err ch h1] at h
      simp at h
  · intro b p c0 h
    by_cases h1 : p.row < b.lines.length
    · by_cases h2 : p.col < (Ed.lineAt b.lines p.row).length
      · rw [Ed.delete_char_eq_ok h1 h2]
        rfl
      · rw [Ed.delete_char_eq_none h1 (by omega)] at h
        simp at h
    · rw [Ed.delete_char_eq_err (by omega)] at h
      simp at h
  · intro b row h
    by_cases h1 : row ≤ b.lines.length
    · rw [Ed.insert_line_eq_ok h1]
      rfl
    · rw [Ed.insert_line_eq_err (by omega)] at h
      simp at h
  · intro b row s0 h
    by_cases h1 : row < b.lines.length
    · by_cases h2 : b.lines.length = 1
      · rw [Ed.delete_line_eq_single h1 h2]
        rfl
      · rw [Ed.delete_line_eq_multi h1 h2]
        rfl
    · rw [Ed.delete_line_eq_err (by omega)] at h
      simp at h
  · intro b row col ch h
    by_cases h1 : row < b.lines.length
    · by_cases h2 : col ≤ (b.lines.getD row []).length
      · rw [Domain.tb_insert_char_eq_ok h1 h2]
        rfl
      · rw [Domain.tb_insert_char_eq_err_col h1 (by omega)] at h
        simp at h
    · rw [Domain.tb_insert_char_eq_err_row (by omega)] at h
      simp at h

/-- C6 counterexample: on the domain `TextBuffer` loaded from `"\nx"`
(lines `["", "x"]`), `delete_line(0)` records a `Delete` with empty content;
`undo()` succeeds but leaves the text unchanged (`["x"]`, nothing to
reinsert), and `redo()` then deletes the `'x'`, producing `[""]` — not the
pre-undo state `["x"]`. -/
theorem C6_counterexample :
    (Domain.TextBuffer.from_content ['\n', 'x']).lines = [[], ['x']] ∧
    (((Domain.TextBuffer.from_content ['\n', 'x']).delete_line 0).2).lines
      = [['x']] ∧
    ((((Domain.TextBuffer.from_content ['\n', 'x']).delete_line
        0).2).undo).2.lines = [['x']] ∧
    (((((Domain.TextBuffer.from_content ['\n', 'x']).delete_line
        0).2).undo).2.redo).2.lines = [[]] ∧
    [([] : List Char)] ≠ [['x']] := by decide

/-- C6 witness: undo-then-redo at a concrete reachable one-action editor
buffer, and redo-stack clearing at concrete successful edits in both
implementations. -/
theorem C6_witness :
    ((((Ed.Buffer.new.insert_char ⟨0, 0⟩ 'a').2.undo).2.redo).2.lines
      = (Ed.Buffer.new.insert_char ⟨0, 0⟩ 'a').2.lines) ∧
    ((((Ed.Buffer.new.insert_char ⟨0, 0⟩ 'a').2.undo).2.redo).2.modified
      = true) ∧
    ((Ed.Buffer.new.insert_char ⟨0, 0⟩ 'a').2.can_redo = false) ∧
    ((Domain.TextBuffer.new.insert_char 0 0 'a').2.can_redo = false) := by
  have h := C6_undo_redo_roundtrip.1 ((Ed.Buffer.new.insert_char ⟨0, 0⟩ 'a').2)
    ⟨.insert, ⟨0, 0⟩, ['a']⟩ []
    (Ed.Reachable.insert_char ⟨0, 0⟩ 'a' Ed.Reachable.new_) (by decide)
  exact ⟨h.1, h.2.2.2,
    C6_undo_redo_roundtrip.2.1 Ed.Buffer.new ⟨0, 0⟩ 'a' rfl,
    C6_undo_redo_roundtrip.2.2.2.2.2 Domain.TextBuffer.new 0 0 'a' rfl⟩



/-! ## Claim theorems about Backspace and error atomicity -/
/-- C8 (confirmed): executing the Backspace command with a valid cursor
(`row < line_count`, `col ≤ line_length(row)`): with `col > 0` it moves the
cursor one column left and deletes the character there; with `col = 0` and
`row > 0` it joins the current line onto the end of the previous line
(deleting the current line and re-inserting its text character by character,
leaving the cursor after the joined text); at `(0,0)` it is a no-op. -/
theorem C8_backspace_cases (cursor : Domain.CursorPosition)
    (buffer : Domain.TextBuffer)
    (hrow : cursor.row < buffer.line_count)
    (hcol : cursor.col ≤ buffer.get_line_length cursor.row) :
    (0 < cursor.col →
      (App.executeBackspace cursor buffer).1 = .ok () ∧
      (App.executeBackspace cursor buffer).2.1 =
        ⟨cursor.row, cursor.col - 1⟩ ∧
      (App.executeBackspace cursor buffer).2.2.lines =
        buffer.lines.set cursor.row
          ((buffer.lines.getD cursor.row []).eraseIdx (cursor.col - 1))) ∧
    (cursor.col = 0 → 0 < cursor.row →
      (App.executeBackspace cursor buffer).1 = .ok () ∧
      (App.executeBackspace cursor buffer).2.1 =
        ⟨cursor.row - 1,
         (buffer.lines.getD (cursor.row - 1) []).length +
           (buffer.lines.getD cursor.row []).length⟩ ∧
      (App.executeBackspace cursor buffer).2.2.lines =
        (buffer.lines.eraseIdx cursor.row).set (cursor.row - 1)
          ((buffer.lines.getD (cursor.row - 1) []) ++
            (buffer.lines.getD cursor.row []))) ∧
    (cursor.col = 0 → cursor.row = 0 →
      App.executeBackspace cursor buffer = (.ok (), cursor, buffer)) := by
  have hrow' : cursor.row < buffer.lines.length := hrow
  have hcol' : cursor.col ≤ (buffer.lines.getD cursor.row []).length := hcol
  refine ⟨?_, ?_, ?_⟩
  · intro hc
    simp only [App.executeBackspace]
    rw [if_pos hc]
    have hml : cursor.move_left = ⟨cursor.row, cursor.col - 1⟩ := by
      simp only [Domain.CursorPosition.move_left]
      rw [if_pos hc]
    rw [hml]
    rw [Domain.tb_delete_char_eq_ok (show cursor.row < buffer.lines.length from hrow')
      (show cursor.col - 1 < (buffer.lines.getD cursor.row []).length by omega)]
    exact ⟨rfl, rfl, rfl⟩
  · intro hc hr
    simp only [App.executeBackspace]
    rw [if_neg (by omega), if_pos hr]
    have hlen2 : 2 ≤ buffer.lines.length := by omega
    have hget : (buffer.get_line cursor.row).getD [] =
        buffer.lines.getD cursor.row [] := rfl
    rw [Domain.tb_delete_line_eq_multi hrow' (by omega)]
    have herase : (buffer.lines.eraseIdx cursor.row).length =
        buffer.lines.length - 1 := List.length_eraseIdx_of_lt hrow'
    have hprev : (buffer.lines.eraseIdx cursor.row).getD (cursor.row - 1)
        ([] : List Char) = buffer.lines.getD (cursor.row - 1) [] :=
      ListFacts.getD_eraseIdx_lt [] buffer.lines cursor.row (cursor.row - 1)
        (by omega)
    dsimp only
    obtain ⟨hl1, hl2, hl3⟩ := App.insertLoopChars_spec
      ((buffer.get_line cursor.row).getD [])
      ⟨buffer.lines.eraseIdx cursor.row, true,
        ⟨.delete, (cursor.row, 0), buffer.lines.getD cursor.row []⟩ ::
          buffer.undo_stack, []⟩
      (cursor.row - 1) (buffer.get_line_length (cursor.row - 1))
      (by show cursor.row - 1 < (buffer.lines.eraseIdx cursor.row).length
          omega)
      (by show buffer.get_line_length (cursor.row - 1) =
            ((buffer.lines.eraseIdx cursor.row).getD (cursor.row - 1) []).length
          rw [hprev]
          rfl)
    rcases hres : App.insertLoopChars ((buffer.get_line cursor.row).getD [])
        (cursor.row - 1) (buffer.get_line_length (cursor.row - 1))
        ⟨buffer.lines.eraseIdx cursor.row, true,
          ⟨.delete, (cursor.row, 0), buffer.lines.getD cursor.row []⟩ ::
            buffer.undo_stack, []⟩ with ⟨res, col', b₂⟩
    rw [hres] at hl1 hl2 hl3
    simp only at hl1 hl2 hl3
    subst hl1
    dsimp only
    refine ⟨rfl, ?_, ?_⟩
    · rw [hl2]
      show (⟨cursor.row - 1, buffer.get_line_length (cursor.row - 1) +
        ((buffer.get_line cursor.row).getD []).length⟩ :
          Domain.CursorPosition) = _
      rw [hget]
      rfl
    · rw [hl3]
      simp only [hprev, hget]
  · intro hc hr
    simp only [App.executeBackspace]
    rw [if_neg (by omega), if_neg (by omega)]

/-- C8 witness: Backspace at column 0 of row 1 in `["ab","cd"]` joins the
lines; Backspace at `(0,0)` is a no-op. -/
theorem C8_witness :
    ((App.executeBackspace ⟨1, 0⟩ ⟨[['a', 'b'], ['c', 'd']], false, [], []⟩).2.2.lines
      = [['a', 'b', 'c', 'd']]) ∧
    ((App.executeBackspace ⟨1, 0⟩ ⟨[['a', 'b'], ['c', 'd']], false, [], []⟩).2.1
      = ⟨0, 4⟩) ∧
    (App.executeBackspace ⟨0, 0⟩ ⟨[['a', 'b'], ['c', 'd']], false, [], []⟩
      = (.ok (), ⟨0, 0⟩, ⟨[['a', 'b'], ['c', 'd']], false, [], []⟩)) := by
  have h := C8_backspace_cases ⟨1, 0⟩ ⟨[['a', 'b'], ['c', 'd']], false, [], []⟩
    (by decide) (by decide)
  have h0 := C8_backspace_cases ⟨0, 0⟩ ⟨[['a', 'b'], ['c', 'd']], false, [], []⟩
    (by decide) (by decide)
  obtain ⟨-, hjoin, -⟩ := h
  obtain ⟨hj1, hj2, hj3⟩ := hjoin rfl (by decide)
  exact ⟨by rw [hj3]; decide, by rw [hj2]; decide, (h0.2.2) rfl rfl⟩

/-- C10 (confirmed): buffer mutation failures are atomic in both buffer
implementations: whenever `insert_char`, `delete_char`, `insert_line` or
`delete_line` returns an out-of-bounds error — and whenever `delete_char`
returns `Ok(None)` for a column at or past end of line — the returned state
is exactly the input state (lines, modified flag, undo stack and redo stack
all unchanged; no action recorded; redo stack not cleared). -/
theorem C10_error_atomicity :
    (∀ (b : Domain.TextBuffer) (row col : Nat) (ch : Char) (e : Domain.TBError),
      (b.insert_char row col ch).1 = .error e → (b.insert_char row col ch).2 = b) ∧
    (∀ (b : Domain.TextBuffer) (row col : Nat) (e : Domain.TBError),
      (b.delete_char row col).1 = .error e → (b.delete_char row col).2 = b) ∧
    (∀ (b : Domain.TextBuffer) (row col : Nat),
      (b.delete_char row col).1 = .ok none → (b.delete_char row col).2 = b) ∧
    (∀ (b : Domain.TextBuffer) (row : Nat) (e : Domain.TBError),
      (b.insert_line row).1 = .error e → (b.insert_line row).2 = b) ∧
    (∀ (b : Domain.TextBuffer) (row : Nat) (e : Domain.TBError),
      (b.delete_line row).1 = .error e → (b.delete_line row).2 = b) ∧
    (∀ (b : Ed.Buffer) (p : Ed.Position) (ch : Char) (e : Ed.EditorError),
      (b.insert_char p ch).1 = .error e → (b.insert_char p ch).2 = b) ∧
    (∀ (b : Ed.Buffer) (p : Ed.Position) (e : Ed.EditorError),
      (b.delete_char p).1 = .error e → (b.delete_char p).2 = b) ∧
    (∀ (b : Ed.Buffer) (p : Ed.Position),
      (b.delete_char p).1 = .ok none → (b.delete_char p).2 = b) ∧
    (∀ (b : Ed.Buffer) (row : Nat) (e : Ed.EditorError),
      (b.insert_line row).1 = .error e → (b.insert_line row).2 = b) ∧
    (∀ (b : Ed.Buffer) (row : Nat) (e : Ed.EditorError),
      (b.delete_line row).1 = .error e → (b.delete_line row).2 = b) := by
  refine ⟨?_, ?_, ?_, ?_, ?_, ?_, ?_, ?_, ?_, ?_⟩
  · intro b row col ch e h
    by_cases h1 : row < b.lines.length
    · by_cases h2 : col ≤ (b.lines.getD row []).length
      · rw [Domain.tb_insert_char_eq_ok h1 h2] at h
        simp at h
      · rw [Domain.tb_insert_char_eq_err_col h1 (by omega)]
    · rw [Domain.tb_insert_char_eq_err_row (by omega)]
  · intro b row col e h
    by_cases h1 : row < b.lines.length
    · by_cases h2 : col < (b.lines.getD row []).length
      · rw [Domain.tb_delete_char_eq_ok h1 h2] at h
        simp at h
      · rw [Domain.tb_delete_char_eq_none h1 (by omega)]
    · rw [Domain.tb_delete_char_eq_err_row (by omega)]
  · intro b row col h
    by_cases h1 : row < b.lines.length
    · by_cases h2 : col < (b.lines.getD row []).length
      · rw [Domain.tb_delete_char_eq_ok h1 h2] at h
        simp at h
      · rw [Domain.tb_delete_char_eq_none h1 (by omega)]
    · rw [Domain.tb_delete_char_eq_err_row (by omega)] at h
      simp at h
  · intro b row e h
    by_cases h1 : row ≤ b.lines.length
    · simp only [Domain.TextBuffer.insert_line] at h
      rw [if_neg (by omega)] at h
      simp at h
    · rw [Domain.tb_insert_line_eq_err (by omega)]
  · intro b row e h
    by_cases h1 : row < b.lines.length
    · by_cases h2 : b.lines.length = 1
      · simp only [Domain.TextBuffer.delete_line] at h
        rw [if_neg (by omega), if_pos h2] at h
        simp at h
      · rw [Domain.tb_delete_line_eq_multi h1 h2] at h
        simp at h
    · rw [Domain.tb_delete_line_eq_err (by omega)]
  · intro b p ch e h
    by_cases h1 : p.row < b.lines.length ∧
        p.col ≤ (Ed.lineAt b.lines p.row).length
    · rw [Ed.insert_char_eq_ok h1.1 h1.2] at h
      simp at h
    · rw [Ed.insert_char_eq_err ch h1]
  · intro b p e h
    by_cases h1 : p.row < b.lines.length
    · by_cases h2 : p.col < (Ed.lineAt b.lines p.row).length
      · rw [Ed.delete_char_eq_ok h1 h2] at h
        simp at h
      · rw [Ed.delete_char_eq_none h1 (by omega)]
    · rw [Ed.delete_char_eq_err (by omega)]
  · intro b p h
    by_cases h1 : p.row < b.lines.length
    · by_cases h2 : p.col < (Ed.lineAt b.lines p.row).length
      · rw [Ed.delete_char_eq_ok h1 h2] at h
        simp at h
      · rw [Ed.delete_char_eq_none h1 (by omega)]
    · rw [Ed.delete_char_eq_err (by omega)] at h
      simp at h
  · intro b row e h
    by_cases h1 : row ≤ b.lines.length
    · rw [Ed.insert_line_eq_ok h1] at h
      simp at h
    · rw [Ed.insert_line_eq_err (by omega)]
  · intro b row e h
    by_cases h1 : row < b.lines.length
    · by_cases h2 : b.lines.length = 1
      · rw [Ed.delete_line_eq_single h1 h2] at h
        simp at h
      · rw [Ed.delete_line_eq_multi h1 h2] at h
        simp at h
    · rw [Ed.delete_line_eq_err (by omega)]

/-- C10 witness: out-of-bounds calls at concrete states leave the state
exactly unchanged. -/
theorem C10_witness :
    ((Domain.TextBuffer.new.insert_char 5 0 'a').2 = Domain.TextBuffer.new) ∧
    ((Domain.TextBuffer.new.delete_char 0 0).2 = Domain.TextBuffer.new) ∧
    ((Ed.Buffer.new.delete_line 3).2 = Ed.Buffer.new) := by
  refine ⟨?_, ?_, ?_⟩
  · exact C10_error_atomicity.1 Domain.TextBuffer.new 5 0 'a'
      (.rowOutOfBounds 5) rfl
  · exact C10_error_atomicity.2.2.1 Domain.TextBuffer.new 0 0 rfl
  · exact C10_error_atomicity.2.2.2.2.2.2.2.2.2 Ed.Buffer.new 3
      (.outOfBounds 3 0) rfl

/-! ## Claim theorems about key lookup and mode transitions -/
/-- A single `transition_with_key` call either leaves the current mode
unchanged or moves along an entry of the transition table. -/
theorem Domain.transition_with_key_cases (m : Domain.ModeManager) (c : Char) :
    ((m.transition_with_key c).2.current_mode = m.current_mode) ∨
    (∃ t ∈ Domain.modeTransitions, t.from_ = m.current_mode ∧
      (m.transition_with_key c).2.current_mode = t.to_) := by
  unfold Domain.ModeManager.transition_with_key
  cases hf : Domain.modeTransitions.find?
      (fun t => decide (t.from_ = m.current_mode ∧ t.trigger = .key c)) with
  | none => exact Or.inl rfl
  | some t =>
    right
    have hmem := List.mem_of_find?_eq_some hf
    have hp := List.find?_some hf
    simp only [decide_eq_true_eq] at hp
    exact ⟨t, hmem, hp.1, rfl⟩

/-- A single `transition_with_escape` call either leaves the current mode
unchanged or moves along an entry of the transition table. -/
theorem Domain.transition_with_escape_cases (m : Domain.ModeManager) :
    ((m.transition_with_escape).2.current_mode = m.current_mode) ∨
    (∃ t ∈ Domain.modeTransitions, t.from_ = m.current_mode ∧
      (m.transition_with_escape).2.current_mode = t.to_) := by
  unfold Domain.ModeManager.transition_with_escape
  cases hf : Domain.modeTransitions.find?
      (fun t => decide (t.from_ = m.current_mode ∧ t.trigger = .escape)) with
  | none => exact Or.inl rfl
  | some t =>
    right
    have hmem := List.mem_of_find?_eq_some hf
    have hp := List.find?_some hf
    simp only [decide_eq_true_eq] at hp
    exact ⟨t, hmem, hp.1, rfl⟩

/-- `parse_key` dispatches Normal mode to `parse_normal_mode_key`. -/
theorem parse_key_normal_eq (p : Option Domain.EditorMode) (k : KeyEvent) :
    App.parse_key ⟨⟨.normal, p⟩⟩ k = App.parse_normal_mode_key ⟨⟨.normal, p⟩⟩ k := rfl

/-- `parse_key` dispatches Insert mode to `parse_insert_mode_key`. -/
theorem parse_key_insert_eq (p : Option Domain.EditorMode) (k : KeyEvent) :
    App.parse_key ⟨⟨.insert, p⟩⟩ k = App.parse_insert_mode_key ⟨⟨.insert, p⟩⟩ k := rfl

/-- `parse_key` dispatches Visual mode to `parse_visual_mode_key`. -/
theorem parse_key_visual_eq (p : Option Domain.EditorMode) (k : KeyEvent) :
    App.parse_key ⟨⟨.visual, p⟩⟩ k = App.parse_visual_mode_key ⟨⟨.visual, p⟩⟩ k := rfl

/-- `parse_key` dispatches Command mode to `parse_command_mode_key`. -/
theorem parse_key_command_eq (p : Option Domain.EditorMode) (k : KeyEvent) :
    App.parse_key ⟨⟨.command, p⟩⟩ k = App.parse_command_mode_key ⟨⟨.command, p⟩⟩ k := rfl

set_option maxHeartbeats 1600000 in
/-- C3 (amended): resolving a key event to a command is deterministic (the
embedded `parse_key` and `map_key` are functions of the bindings state and
key alone), and `KeyMapper::map_key` is a pure lookup with no state at all;
but `VimBindings::parse_key` is not a pure lookup: for the mode-transition
keys it changes the mode as a side effect of the lookup itself.  What does
hold is that any mode change performed during `parse_key` moves along the
`ModeManager` transition table — for every other key the lookup leaves the
mode unchanged. -/
theorem C3_parse_key_mode_change (vb : App.VimBindings) (k : KeyEvent) :
    ((App.parse_key vb k).2.mode_manager.current_mode
      = vb.mode_manager.current_mode) ∨
    (∃ t ∈ Domain.modeTransitions,
      t.from_ = vb.mode_manager.current_mode ∧
      (App.parse_key vb k).2.mode_manager.current_mode = t.to_) := by
  obtain ⟨⟨cur, prev⟩⟩ := vb
  cases cur with
  | normal =>
    rw [parse_key_normal_eq]
    unfold App.parse_normal_mode_key
    split
    next c heq =>
      by_cases h1 : c = 'h' ∧ k.modifiers = KeyModifiers.NONE
      · rw [if_pos h1]
        exact Or.inl rfl
      rw [if_neg h1]
      by_cases h2 : c = 'j' ∧ k.modifiers = KeyModifiers.NONE
      · rw [if_pos h2]
        exact Or.inl rfl
      rw [if_neg h2]
      by_cases h3 : c = 'k' ∧ k.modifiers = KeyModifiers.NONE
      · rw [if_pos h3]
        exact Or.inl rfl
      rw [if_neg h3]
      by_cases h4 : c = 'l' ∧ k.modifiers = KeyModifiers.NONE
      · rw [if_pos h4]
        exact Or.inl rfl
      rw [if_neg h4]
      by_cases h5 : c = 'w' ∧ k.modifiers = KeyModifiers.NONE
      · rw [if_pos h5]
        exact Or.inl rfl
      rw [if_neg h5]
      by_cases h6 : c = 'b' ∧ k.modifiers = KeyModifiers.NONE
      · rw [if_pos h6]
        exact Or.inl rfl
      rw [if_neg h6]
      by_cases h7 : c = '0' ∧ k.modifiers = KeyModifiers.NONE
      · rw [if_pos h7]
        exact Or.inl rfl
      rw [if_neg h7]
      by_cases h8 : c = '$' ∧ k.modifiers = KeyModifiers.NONE
      · rw [if_pos h8]
        exact Or.inl rfl
      rw [if_neg h8]
      by_cases h9 : c = 'g' ∧ k.modifiers = KeyModifiers.NONE
      · rw [if_pos h9]
        exact Or.inl rfl
      rw [if_neg h9]
      by_cases h10 : c = 'G' ∧ k.modifiers = KeyModifiers.SHIFT
      · rw [if_pos h10]
        exact Or.inl rfl
      rw [if_neg h10]
      by_cases h11 : c = 'i' ∧ k.modifiers = KeyModifiers.NONE
      · rw [if_pos h11]
        exact Domain.transition_with_key_cases ⟨.normal, prev⟩ 'i'
      rw [if_neg h11]
      by_cases h12 : c = 'a' ∧ k.modifiers = KeyModifiers.NONE
      · rw [if_pos h12]
        exact Domain.transition_with_key_cases ⟨.normal, prev⟩ 'a'
      rw [if_neg h12]
      by_cases h13 : c = 'o' ∧ k.modifiers = KeyModifiers.NONE
      · rw [if_pos h13]
        exact Domain.transition_with_key_cases ⟨.normal, prev⟩ 'o'
      rw [if_neg h13]
      by_cases h14 : c = 'O' ∧ k.modifiers = KeyModifiers.SHIFT
      · rw [if_pos h14]
        exact Domain.transition_with_key_cases ⟨.normal, prev⟩ 'O'
      rw [if_neg h14]
      by_cases h15 : c = 'v' ∧ k.modifiers = KeyModifiers.NONE
      · rw [if_pos h15]
        exact Domain.transition_with_key_cases ⟨.normal, prev⟩ 'v'
      rw [if_neg h15]
      by_cases h16 : c = ':' ∧ k.modifiers = KeyModifiers.NONE
      · rw [if_pos h16]
        exact Domain.transition_with_key_cases ⟨.normal, prev⟩ ':'
      rw [if_neg h16]
      by_cases h17 : c = 'x' ∧ k.modifiers = KeyModifiers.NONE
      · rw [if_pos h17]
        exact Or.inl rfl
      rw [if_neg h17]
      by_cases h18 : c = 'd' ∧ k.modifiers = KeyModifiers.NONE
      · rw [if_pos h18]
        exact Or.inl rfl
      rw [if_neg h18]
      by_cases h19 : c = 'u' ∧ k.modifiers = KeyModifiers.NONE
      · rw [if_pos h19]
        exact Or.inl rfl
      rw [if_neg h19]
      by_cases h20 : c = 'r' ∧ k.modifiers = KeyModifiers.CONTROL
      · rw [if_pos h20]
        exact Or.inl rfl
      rw [if_neg h20]
      by_cases h21 : c = 'f' ∧ k.modifiers = KeyModifiers.CONTROL
      · rw [if_pos h21]
        exact Or.inl rfl
      rw [if_neg h21]
      by_cases h22 : c = 'b' ∧ k.modifiers = KeyModifiers.CONTROL
      · rw [if_pos h22]
        exact Or.inl rfl
      rw [if_neg h22]
      exact Or.inl rfl
    next => exact Or.inl rfl
  | insert =>
    rw [parse_key_insert_eq]
    unfold App.parse_insert_mode_key
    repeat' (first
      | exact Or.inl rfl
      | exact Domain.transition_with_escape_cases ⟨.insert, prev⟩
      | split)
  | visual =>
    rw [parse_key_visual_eq]
    unfold App.parse_visual_mode_key
    repeat' (first
      | exact Or.inl rfl
      | exact Domain.transition_with_escape_cases ⟨.visual, prev⟩
      | split)
  | command =>
    rw [parse_key_command_eq]
    unfold App.parse_command_mode_key
    repeat' (first
      | exact Or.inl rfl
      | exact Domain.transition_with_escape_cases ⟨.command, prev⟩
      | split)

/-- C3 counterexample: in Normal mode, merely parsing the key `'i'` (the
lookup itself, before any command is executed) already switches the mode to
Insert — so the key-to-command resolution is not a pure lookup that leaves
the mode unchanged. -/
theorem C3_counterexample :
    (App.parse_key App.VimBindings.new
        ⟨.char 'i', KeyModifiers.NONE⟩).2.mode_manager.current_mode
      = Domain.EditorMode.insert ∧
    App.VimBindings.new.mode_manager.current_mode
      = Domain.EditorMode.normal ∧
    (App.parse_key App.VimBindings.new
        ⟨.char 'i', KeyModifiers.NONE⟩).1 = App.VimCommand.enterInsertMode := by
  decide

/-- C7: both mode managers start in Normal; the table-driven
`ModeManager::transition_with_key` / `transition_with_escape` agree exactly
with the §4.3 table (firing entries update the mode and record the previous
one, every other trigger returns `false` with the manager unchanged — a
no-op, not an error); and the `vim` subsystem's `transition_to` either
leaves the current mode unchanged or moves along a §4.3 (from, to) pair
(including the sanctioned Visual→Insert variant), with every out-of-table
attempt leaving the mode unchanged. -/
theorem C7_mode_transition_table :
    Domain.ModeManager.new.current_mode = Domain.EditorMode.normal ∧
    Vim.ModeManager.new.current = Vim.Mode.normal ∧
    (∀ (m : Domain.ModeManager) (c : Char),
      m.transition_with_key c =
        match SpecModel.transitionKey m.current_mode c with
        | some tgt => (true, ⟨tgt, some m.current_mode⟩)
        | none => (false, m)) ∧
    (∀ m : Domain.ModeManager,
      m.transition_with_escape =
        match SpecModel.transitionEscape m.current_mode with
        | some tgt => (true, ⟨tgt, some m.current_mode⟩)
        | none => (false, m)) ∧
    (∀ (m : Vim.ModeManager) (t : Vim.Mode),
      (m.transition_to t).current = m.current ∨
        (SpecModel.allowedTarget m.current t = true ∧
          m.transition_to t = ⟨t, some m.current⟩)) ∧
    (∀ (m : Vim.ModeManager) (t : Vim.Mode),
      SpecModel.allowedTarget m.current t = false →
        (m.transition_to t).current = m.current) := by
  refine ⟨rfl, rfl, ?_, ?_, ?_, ?_⟩
  · intro m c
    obtain ⟨cur, prev⟩ := m
    cases cur with
    | normal =>
      by_cases hi : c = 'i'
      · subst hi; rfl
      by_cases ha : c = 'a'
      · subst ha; rfl
      by_cases ho : c = 'o'
      · subst ho; rfl
      by_cases hO : c = 'O'
      · subst hO; rfl
      by_cases hv : c = 'v'
      · subst hv; rfl
      by_cases hc : c = ':'
      · subst hc; rfl
      simp [Domain.ModeManager.transition_with_key, Domain.modeTransitions,
        SpecModel.transitionKey, List.find?, hi, ha, ho, hO, hv, hc,
        Ne.symm hi, Ne.symm ha, Ne.symm ho, Ne.symm hO, Ne.symm hv, Ne.symm hc]
    | insert => rfl
    | visual => rfl
    | command => rfl
  · intro m
    obtain ⟨cur, prev⟩ := m
    cases cur <;> rfl
  · intro m t
    obtain ⟨cur, prev⟩ := m
    cases cur <;> cases t <;>
      simp [Vim.ModeManager.transition_to, Vim.ModeManager.can_transition_to,
        SpecModel.allowedTarget]
  · intro m t
    obtain ⟨cur, prev⟩ := m
    cases cur <;> cases t <;>
      simp [Vim.ModeManager.transition_to, Vim.ModeManager.can_transition_to,
        SpecModel.allowedTarget]

/-- Witness for C7 at a concrete out-of-table pair: an Insert→Insert
attempt leaves the mode unchanged. -/
theorem C7_witness :
    SpecModel.allowedTarget Vim.Mode.insert Vim.Mode.insert = false ∧
    (Vim.ModeManager.transition_to ⟨.insert, none⟩ .insert).current
      = Vim.Mode.insert :=
  ⟨by decide,
   C7_mode_transition_table.2.2.2.2.2 ⟨.insert, none⟩ .insert (by decide)⟩

/-- C9 (amended): the `domain`/`application` subsystem's post-command
`EditorService::adjust_cursor_position` does enforce the claimed
mode-dependent bounds on any non-empty buffer (row below `line_count`,
column at most the new row's length in Insert mode and at most
`length - 1` otherwise).  The `vim` subsystem used by the binary clamps
the column only to the new row's full length after `MoveDown`/`MoveUp`
(and `main.rs`'s adjustment step is mode-independent), so there the
mode-dependent `length - 1` bound does not hold — see the
counterexample. -/
theorem C9_cursor_bounds :
    (∀ (cursor : Domain.CursorPosition) (buffer : Domain.TextBuffer)
        (mode : Domain.EditorMode), 1 ≤ buffer.line_count →
      (App.adjust_cursor_position cursor buffer mode).row < buffer.line_count ∧
      (App.adjust_cursor_position cursor buffer mode).col ≤
        (if mode = Domain.EditorMode.insert then
          buffer.get_line_length (App.adjust_cursor_position cursor buffer mode).row
        else
          buffer.get_line_length
            (App.adjust_cursor_position cursor buffer mode).row - 1)) ∧
    (∀ (buffer : Ed.Buffer) (cursor : Ed.Position),
      cursor.row < buffer.line_count →
      (Vim.execute_move_down buffer cursor).row < buffer.line_count ∧
      (Vim.execute_move_down buffer cursor).col ≤
        (Ed.lineAt buffer.lines (Vim.execute_move_down buffer cursor).row).length) ∧
    (∀ (buffer : Ed.Buffer) (cursor : Ed.Position),
      cursor.row < buffer.line_count →
      (Vim.execute_move_up buffer cursor).row < buffer.line_count ∧
      (Vim.execute_move_up buffer cursor).col ≤
        (Ed.lineAt buffer.lines (Vim.execute_move_up buffer cursor).row).length) := by
  refine ⟨?_, ?_, ?_⟩
  · intro cursor buffer mode h1
    simp only [App.adjust_cursor_position, Domain.TextBuffer.get_line_length,
      Domain.TextBuffer.line_count] at h1 ⊢
    by_cases hr : 0 < buffer.lines.length ∧ cursor.row ≥ buffer.lines.length
    · rw [if_pos hr]
      refine ⟨by omega, ?_⟩
      by_cases him : mode = Domain.EditorMode.insert
      · rw [if_pos him, if_pos him]
        split <;> omega
      · rw [if_neg him, if_neg him, Nat.max_zero]
        split <;> omega
    · rw [if_neg hr]
      refine ⟨by omega, ?_⟩
      by_cases him : mode = Domain.EditorMode.insert
      · rw [if_pos him, if_pos him]
        split <;> omega
      · rw [if_neg him, if_neg him, Nat.max_zero]
        split <;> omega
  · intro buffer cursor h
    simp only [Ed.Buffer.line_count] at h ⊢
    simp only [Vim.execute_move_down, Ed.Position.move_down,
      Ed.Buffer.line_length, Ed.Buffer.line_count, Ed.Position.clamp_to_line]
    by_cases hd : cursor.row + 1 < buffer.lines.length
    · rw [if_pos hd]
      dsimp only
      rw [if_pos hd]
      dsimp only
      split <;> refine ⟨?_, ?_⟩ <;> (dsimp only; omega)
    · rw [if_neg hd]
      dsimp only
      rw [if_pos h]
      dsimp only
      split <;> refine ⟨?_, ?_⟩ <;> (dsimp only; omega)
  · intro buffer cursor h
    simp only [Ed.Buffer.line_count] at h ⊢
    simp only [Vim.execute_move_up, Ed.Position.move_up,
      Ed.Buffer.line_length, Ed.Buffer.line_count, Ed.Position.clamp_to_line]
    by_cases hu : cursor.row > 0
    · rw [if_pos hu]
      dsimp only
      rw [if_pos (show cursor.row - 1 < buffer.lines.length by omega)]
      dsimp only
      split <;> refine ⟨?_, ?_⟩ <;> (dsimp only; omega)
    · rw [if_neg hu]
      dsimp only
      rw [if_pos h]
      dsimp only
      split <;> refine ⟨?_, ?_⟩ <;> (dsimp only; omega)

/-- Witness for C9 at concrete inputs: the fresh one-line `TextBuffer` with
an out-of-range cursor in Normal mode, and a two-line `Buffer` moved down
from `(0,0)` and up from `(1,1)`. -/
theorem C9_witness :
    (1 ≤ Domain.TextBuffer.new.line_count ∧
      ((App.adjust_cursor_position ⟨3, 4⟩ Domain.TextBuffer.new
          Domain.EditorMode.normal).row < Domain.TextBuffer.new.line_count ∧
        (App.adjust_cursor_position ⟨3, 4⟩ Domain.TextBuffer.new
            Domain.EditorMode.normal).col ≤
          (if Domain.EditorMode.normal = Domain.EditorMode.insert then
            Domain.TextBuffer.new.get_line_length
              (App.adjust_cursor_position ⟨3, 4⟩ Domain.TextBuffer.new
                Domain.EditorMode.normal).row
          else
            Domain.TextBuffer.new.get_line_length
              (App.adjust_cursor_position ⟨3, 4⟩ Domain.TextBuffer.new
                Domain.EditorMode.normal).row - 1))) ∧
    ((0 : Nat) < (⟨[['a','b'], ['a','b']], false, [], []⟩ : Ed.Buffer).line_count ∧
      ((Vim.execute_move_down ⟨[['a','b'], ['a','b']], false, [], []⟩ ⟨0, 0⟩).row
          < (⟨[['a','b'], ['a','b']], false, [], []⟩ : Ed.Buffer).line_count ∧
        (Vim.execute_move_down ⟨[['a','b'], ['a','b']], false, [], []⟩ ⟨0, 0⟩).col ≤
          (Ed.lineAt [['a','b'], ['a','b']]
            (Vim.execute_move_down ⟨[['a','b'], ['a','b']], false, [], []⟩
              ⟨0, 0⟩).row).length)) ∧
    ((1 : Nat) < (⟨[['a','b'], ['a','b']], false, [], []⟩ : Ed.Buffer).line_count ∧
      ((Vim.execute_move_up ⟨[['a','b'], ['a','b']], false, [], []⟩ ⟨1, 1⟩).row
          < (⟨[['a','b'], ['a','b']], false, [], []⟩ : Ed.Buffer).line_count ∧
        (Vim.execute_move_up ⟨[['a','b'], ['a','b']], false, [], []⟩ ⟨1, 1⟩).col ≤
          (Ed.lineAt [['a','b'], ['a','b']]
            (Vim.execute_move_up ⟨[['a','b'], ['a','b']], false, [], []⟩
              ⟨1, 1⟩).row).length)) :=
  ⟨⟨by decide,
    C9_cursor_bounds.1 ⟨3, 4⟩ Domain.TextBuffer.new .normal (by decide)⟩,
   ⟨by decide,
    C9_cursor_bounds.2.1 ⟨[['a','b'], ['a','b']], false, [], []⟩ ⟨0, 0⟩
      (by decide)⟩,
   ⟨by decide,
    C9_cursor_bounds.2.2 ⟨[['a','b'], ['a','b']], false, [], []⟩ ⟨1, 1⟩
      (by decide)⟩⟩

/-- C9 counterexample for the `vim` subsystem wired up by `main.rs`: on the
two-line buffer `ab`/`ab` in Normal mode, `MoveDown` from `(0,2)` followed by
the binary's (mode-independent) `adjust_cursor_position` leaves the cursor at
`(1,2)`, whose column exceeds the claimed Normal-mode bound
`line_length - 1 = 1`. -/
theorem C9_counterexample :
    Vim.execute_move_down ⟨[['a','b'], ['a','b']], false, [], []⟩ ⟨0, 2⟩
      = ⟨1, 2⟩ ∧
    Main.adjust_cursor_position ⟨[['a','b'], ['a','b']], false, [], []⟩ ⟨1, 2⟩
      = ⟨1, 2⟩ ∧
    ¬((Main.adjust_cursor_position ⟨[['a','b'], ['a','b']], false, [], []⟩
        ⟨1, 2⟩).col ≤
      (Ed.lineAt [['a','b'], ['a','b']] 1).length - 1) := by decide
